import Mathlib

/-!
# go-secrets: token factory, checksum and base62 codec

A shallow embedding of `tokens.go`, `token_factory.go` and `secrets.go` (package
`secrets`).

* A Go `byte` is a `Fin 256`; a Go `string` and a `[]byte` are both `List Byte`
  (Go strings are byte sequences and `len` counts bytes).
* A Go `int` is a 64-bit two's complement integer: an `Int` between `MinInt`
  and `MaxInt`. A `TokenConfig` carries the proofs that `Len` and `CrcLen` are
  such values and that `Prefix` is no longer than `MaxInt`; `int` arithmetic
  wraps around (`wrapInt`).
* A function that can panic at run time (slice bounds out of range, `make` with a
  negative length) returns an `Option`; `none` is the panic.
* `fmt` refuses a `*` width whose magnitude exceeds 1 000 000: it writes
  `%!(BADWIDTH)` and formats without a width.
* Memory is not modelled: `make` succeeds for every non-negative length.
* `crypto/rand`, `hash/crc32`, `fmt` and `math/big` are modelled by what they
  compute: the random source is an explicit argument, CRC-32 is the reflected
  IEEE polynomial, big integers are `Int`.
-/

namespace Secrets

/-! ## Bytes, strings, errors -/

/-- One Go `byte`. -/
abbrev Byte := Fin 256

/-- Go `string` / `[]byte`: a sequence of bytes. -/
abbrev GoString := List Byte

/-- Bytes of an ASCII literal of the source. -/
def ascii (s : String) : GoString := s.toList.map (fun c => Fin.ofNat c.toNat)

/-- Go `error` values built by this package: `errors.New(text)` and
`fmt.Errorf(text + "%q", arg)`. The random source hands its own errors through
unchanged, as values of this type. -/
inductive GoError where
  | new (text : String)
  | errorfQ (text : String) (arg : GoString)
deriving DecidableEq, Repr

/-- The message `err.Error()`; `quote` is the rendering of the `%q` verb. -/
def GoError.Error (quote : GoString → String) : GoError → String
  | .new text => text
  | .errorfQ text arg => text ++ quote arg

/-- The message of `e` contains `needle`, whatever `%q` renders. -/
def GoError.Contains (e : GoError) (needle : String) : Prop :=
  ∀ quote : GoString → String, needle.data <:+: (e.Error quote).data

/-- Equality of `Except` results is decidable. -/
instance instDecidableEqExcept {ε α : Type} [DecidableEq ε] [DecidableEq α] :
    DecidableEq (Except ε α)
  | .ok a, .ok b =>
    if h : a = b then isTrue (by rw [h]) else isFalse (fun h2 => h (by cases h2; rfl))
  | .error a, .error b =>
    if h : a = b then isTrue (by rw [h]) else isFalse (fun h2 => h (by cases h2; rfl))
  | .ok _, .error _ => isFalse (fun h2 => by cases h2)
  | .error _, .ok _ => isFalse (fun h2 => by cases h2)

/-- The byte is an ASCII decimal digit, `[0-9]`. -/
def isDigitByte (c : Byte) : Prop := 48 ≤ c.val ∧ c.val ≤ 57

/-- The byte is in the 62-character alphabet `[0-9A-Za-z]`. -/
def isAlnumByte (c : Byte) : Prop :=
  (48 ≤ c.val ∧ c.val ≤ 57) ∨ (65 ≤ c.val ∧ c.val ≤ 90) ∨ (97 ≤ c.val ∧ c.val ≤ 122)

instance instDecidableIsDigitByte (c : Byte) : Decidable (isDigitByte c) := by
  unfold isDigitByte; infer_instance

instance instDecidableIsAlnumByte (c : Byte) : Decidable (isAlnumByte c) := by
  unfold isAlnumByte; infer_instance

/-- The smallest Go `int`, `math.MinInt64`. -/
def MinInt : Int := -9223372036854775808

/-- The largest Go `int`, `math.MaxInt64`. -/
def MaxInt : Int := 9223372036854775807

/-- The integer is a value of the Go type `int`. -/
def isInt (x : Int) : Prop := -9223372036854775808 ≤ x ∧ x ≤ 9223372036854775807

instance instDecidableIsInt (x : Int) : Decidable (isInt x) := by
  unfold isInt; infer_instance

/-- The `int` that Go computes where exact arithmetic gives `x`: the value
congruent to `x` modulo `2^64` between `MinInt` and `MaxInt`. -/
def wrapInt (x : Int) : Int :=
  (x + 9223372036854775808) % 18446744073709551616 - 9223372036854775808

/-- The builtin `len` as an operand of `int` arithmetic. A Go string or slice
has at most `MaxInt` bytes, and then this is its length. -/
def goLen {α : Type} (s : List α) : Int := wrapInt (s.length : Int)

/-- Slice expression `s[:hi]`; `none` is the bounds panic. -/
def sliceTo {α : Type} (s : List α) (hi : Int) : Option (List α) :=
  if 0 ≤ hi ∧ hi ≤ (s.length : Int) then some (s.take hi.toNat) else none

/-- Slice expression `s[lo:]`; `none` is the bounds panic. -/
def sliceFrom {α : Type} (s : List α) (lo : Int) : Option (List α) :=
  if 0 ≤ lo ∧ lo ≤ (s.length : Int) then some (s.drop lo.toNat) else none

/-! ## Positional numerals -/

/-- Little-endian digits of `n` in base `b`, `fuel` bounding the digit count. -/
def digitsLE (b : Nat) : Nat → Nat → List Nat
  | 0, _ => []
  | fuel + 1, n => if n = 0 then [] else n % b :: digitsLE b fuel (n / b)

/-- Decimal rendering of an unsigned integer, as the `%d` verb prints it. -/
def formatUint (n : Nat) : GoString :=
  if n = 0 then [48] else ((digitsLE 10 n n).reverse).map (fun d => Fin.ofNat (48 + d))

/-- Width handling of `fmt` for a `*` width it accepts, with the `0` flag: a
negative width left-justifies and pads with blanks, otherwise zeros go in
front. -/
def padWidth (w : Int) (s : GoString) : GoString :=
  if w < 0 then s ++ List.replicate ((-w).toNat - s.length) 32
  else List.replicate (w.toNat - s.length) 48 ++ s

/-- The function `tooLarge` of `fmt`: the magnitude is too large for a width. -/
def tooLarge (x : Int) : Prop := x > 1000000 ∨ x < -1000000

instance instDecidableTooLarge (x : Int) : Decidable (tooLarge x) := by
  unfold tooLarge; infer_instance

/-- The constant `badWidthString` of `fmt`. -/
def badWidthString : GoString := ascii "%!(BADWIDTH)"

/-- One operand formatted under a `*` width with the `0` flag: `fmt` writes
`badWidthString` for a width that is too large and then formats without a
width; otherwise it pads. -/
def starWidth (w : Int) (s : GoString) : GoString :=
  if tooLarge w then badWidthString ++ s else padWidth w s

/-- The call `fmt.Sprintf("%0*d", w, n)` for an unsigned `n`. -/
def sprintfPadUint (w : Int) (n : Nat) : GoString := starWidth w (formatUint n)

/-- The call `fmt.Sprintf("%s%0*s", b, w, s)`. -/
def sprintfBytesPadStr (b : GoString) (w : Int) (s : GoString) : GoString :=
  b ++ starWidth w s

/-! ## hash/crc32 -/

/-- One shift step of the table construction for the reflected polynomial
`0xedb88320` (`crc32.IEEE`). -/
def crcShift (c : Nat) : Nat :=
  if c % 2 = 1 then (c / 2) ^^^ 0xedb88320 else c / 2

/-- Entry `i` of `crc32.IEEETable`. -/
def crcTable (i : Nat) : Nat :=
  crcShift (crcShift (crcShift (crcShift (crcShift (crcShift (crcShift (crcShift i)))))))

/-- One byte of the update loop: `tab[byte(crc)^v] ^ (crc >> 8)`. -/
def crcStep (crc : Nat) (v : Byte) : Nat :=
  crcTable ((crc % 256) ^^^ v.val) ^^^ (crc / 256)

/-- The function `crc32.ChecksumIEEE`. -/
def ChecksumIEEE (data : GoString) : Nat :=
  (data.foldl crcStep 0xffffffff) ^^^ 0xffffffff

/-! ## math/big -/

/-- The digit table of `math/big`: digits, then lowercase, then uppercase. -/
def bigDigits : GoString :=
  ascii "0123456789abcdefghijklmnopqrstuvwxyzABCDEFGHIJKLMNOPQRSTUVWXYZ"

/-- The constant `big.MaxBase`. -/
def MaxBase : Nat := 62

/-- The constant `maxBaseSmall` of `math/big`. -/
def maxBaseSmall : Nat := 36

/-- Method `(*Int).SetBytes`: the big-endian unsigned value of the bytes. -/
def bigSetBytes (buf : GoString) : Int :=
  ((buf.foldl (fun acc v => acc * 256 + v.val) 0 : Nat) : Int)

/-- Method `(*Int).Bytes`: the big-endian bytes of the absolute value, with no
leading zero byte (none at all for zero). -/
def bigBytes (x : Int) : GoString :=
  ((digitsLE 256 x.natAbs x.natAbs).reverse).map (fun d => Fin.ofNat d)

/-- Rendering of a natural number in `base` with the table `bigDigits`. -/
def natText (n : Nat) (base : Nat) : GoString :=
  if n = 0 then [48]
  else ((digitsLE base n n).reverse).map (fun d => bigDigits.getD d 0)

/-- Method `(*Int).Text`: a minus sign for a negative value, then the digits. -/
def bigText (x : Int) (base : Nat) : GoString :=
  if x < 0 then 45 :: natText x.natAbs base else natText x.natAbs base

/-- Digit value of a character in `nat.scan` for the actual base `b`; a
character that is no digit gets `MaxBase + 1`. -/
def digitVal (b : Nat) (ch : Byte) : Nat :=
  if 48 ≤ ch.val ∧ ch.val ≤ 57 then ch.val - 48
  else if 97 ≤ ch.val ∧ ch.val ≤ 122 then ch.val - 97 + 10
  else if 65 ≤ ch.val ∧ ch.val ≤ 90 then
    (if b ≤ maxBaseSmall then ch.val - 65 + 10 else ch.val - 65 + maxBaseSmall)
  else MaxBase + 1

/-- The digit loop of `nat.scan` for a fixed base between 2 and 62: it
accumulates digits until the input ends or a character is no digit of the
base, and returns the value, the digit count and the unread input. -/
def scanDigits (b : Nat) : GoString → Nat → Nat → Nat × Nat × GoString
  | [], acc, count => (acc, count, [])
  | ch :: rest, acc, count =>
    if digitVal b ch ≥ b then (acc, count, ch :: rest)
    else scanDigits b rest (acc * b + digitVal b ch) (count + 1)

/-- Method `(*Int).SetString` for a base between 2 and 62; `none` is the
`false` result. `scanSign` fails on the empty input and consumes one leading
sign; `nat.scan` fails when it finds no digit; `setFromScanner` fails when
input is left over. -/
def bigSetString (s : GoString) (base : Nat) : Option Int :=
  match s with
  | [] => none
  | ch :: rest =>
    let neg : Bool := decide (ch = 45)
    let body : GoString := if ch = 45 ∨ ch = 43 then rest else ch :: rest
    let r := scanDigits base body 0 0
    if r.2.1 = 0 then none
    else if r.2.2 ≠ [] then none
    else some (if neg ∧ r.1 ≠ 0 then -(r.1 : Int) else (r.1 : Int))

/-! ## tokens.go -/

/-- The struct `Token`. Field `pfx` is the source's `prefix`. -/
structure Token where
  token : GoString
  pfx : GoString
  b : GoString
  crc : GoString
  Valid : Bool
  err : Option GoError
deriving DecidableEq, Repr

/-- Method `Err`. -/
def Token.Err (t : Token) : Option GoError := t.err

/-- Method `String`: `t.prefix + t.token`. -/
def Token.String (t : Token) : GoString := t.pfx ++ t.token

/-- Method `Prefix`. -/
def Token.Prefix (t : Token) : GoString := t.pfx

/-- Method `Len`: `len(t.String())`. -/
def Token.Len (t : Token) : Int := (t.String.length : Int)

/-- The constant `letters` of `genToken`. -/
def letters : GoString :=
  ascii "0123456789ABCDEFGHIJKLMNOPQRSTUVWXYZabcdefghijklmnopqrstuvwxyz"

/-- The constant `lettersSize`. -/
def lettersSize : Nat := 62

/-- What one call of `rand.Read` does: the bytes it delivers and the error it
returns. -/
structure RandRead where
  data : GoString
  err : Option GoError
deriving DecidableEq, Repr

/-- The call `rand.Read(buf)`: the delivered bytes overwrite the front of the
buffer, whose length does not change. -/
def randRead (rd : RandRead) (buf : GoString) : GoString × Option GoError :=
  (rd.data.take buf.length ++ buf.drop rd.data.length, rd.err)

/-- Indexing `letters[v%lettersSize]`. -/
def letterOf (v : Byte) : Byte := letters.getD (v.val % lettersSize) 0

/-- Function `genToken`; `none` is the panic of `make` on a negative length. -/
def genToken (n : Int) (rd : RandRead) : Option (GoString × Option GoError) :=
  if n < 0 then none
  else
    let randBytes : GoString := List.replicate n.toNat 0
    let r := randRead rd randBytes
    some (r.1.map letterOf, r.2)

/-- Function `toBase62`. -/
def toBase62 (s : GoString) : GoString := bigText (bigSetBytes s) 62

/-- Function `parseBase62`. -/
def parseBase62 (s : GoString) : Except GoError GoString :=
  match bigSetString s 62 with
  | none => .error (GoError.errorfQ "cannot parse base62: " s)
  | some i => .ok (bigBytes i)

/-- Method `Base62`: `t.prefix + toBase62(t.token)`. -/
def Token.Base62 (t : Token) : GoString := t.pfx ++ toBase62 t.token

/-! ## token_factory.go -/

/-- The struct `TokenConfig`. The last three fields say that `Len` and `CrcLen`
are Go `int`s and that `Prefix` is a Go string; for the literals of the source
they hold by evaluation. -/
structure TokenConfig where
  Len : Int
  CrcLen : Int
  Prefix : GoString
  intLen : isInt Len := by decide
  intCrcLen : isInt CrcLen := by decide
  strPrefix : (Prefix.length : Int) ≤ 9223372036854775807 := by decide

/-- The struct `TokenFactory`. -/
structure TokenFactory where
  cfg : TokenConfig

/-- The variable `ConfigDefault`. -/
def ConfigDefault : TokenConfig := { Len := 30, CrcLen := 6, Prefix := [] }

/-- Function `NewTokenFactory`. -/
def NewTokenFactory (config : TokenConfig) : TokenFactory := { cfg := config }

/-- Method `Checksum`: `pad[:f.cfg.CrcLen]` of the padded decimal CRC. -/
def TokenFactory.Checksum (f : TokenFactory) (data : GoString) : Option GoString :=
  let sum := ChecksumIEEE data
  let pad := sprintfPadUint f.cfg.CrcLen sum
  sliceTo pad f.cfg.CrcLen

/-- Method `Validate`: `f.Checksum(t.b) == t.crc`. -/
def TokenFactory.Validate (f : TokenFactory) (t : Token) : Option Bool :=
  (f.Checksum t.b).map (fun c => decide (c = t.crc))

/-- The type `parseFunc`. -/
abbrev parseFunc := GoString → Except GoError GoString

/-- Method `makeToken`. The sum `f.cfg.Len+f.cfg.CrcLen` and the difference
`len(token) - f.cfg.CrcLen` are `int` arithmetic. -/
def TokenFactory.makeToken (f : TokenFactory) (s : GoString) (parser : parseFunc) :
    Option Token := do
  let prLen : Int := goLen f.cfg.Prefix
  let pre ← sliceTo s prLen
  let body ← sliceFrom s prLen
  let t : Token :=
    { token := body, pfx := pre, b := [], crc := [], Valid := false, err := none }
  match parser body with
  | .error e => pure { t with err := some e }
  | .ok token =>
    if goLen token ≠ wrapInt (f.cfg.Len + f.cfg.CrcLen) then
      pure { t with Valid := false, err := some (GoError.new "invalid length") }
    else if t.pfx ≠ f.cfg.Prefix then
      pure { t with Valid := false, err := some (GoError.new "invalid prefix") }
    else do
      let crcIndex : Int := wrapInt (goLen token - f.cfg.CrcLen)
      let sum ← sliceFrom token crcIndex
      let r ← sliceTo token crcIndex
      let t1 : Token := { t with token := token, b := r, crc := sum }
      let isValid ← f.Validate t1
      if isValid then pure { t1 with Valid := true }
      else pure { t1 with Valid := false, err := some (GoError.new "invalid crc") }

/-- Method `FromString`: the parser is `[]byte(s)`. -/
def TokenFactory.FromString (f : TokenFactory) (s : GoString) : Option Token :=
  f.makeToken s (fun x => .ok x)

/-- Method `FromBase62`: the parser is `parseBase62`. -/
def TokenFactory.FromBase62 (f : TokenFactory) (s : GoString) : Option Token :=
  f.makeToken s parseBase62

/-- Method `NewToken`. -/
def TokenFactory.NewToken (f : TokenFactory) (rd : RandRead) : Option Token := do
  let g ← genToken f.cfg.Len rd
  match g.2 with
  | some e =>
    pure { token := [], pfx := [], b := [], crc := [], Valid := false, err := some e }
  | none =>
    let crc ← f.Checksum g.1
    let full := sprintfBytesPadStr g.1 f.cfg.CrcLen crc
    pure { token := full, b := g.1, crc := crc, pfx := f.cfg.Prefix, Valid := true,
           err := none }

/-! ## secrets.go (the fixed-width variant)

`genToken`, `toBase62` and `parseBase62` of this file are the functions of the
same names above, word for word. -/

namespace Legacy

/-- The constant `crcLen`. -/
def crcLen : Int := 6

/-- The struct `Token` of `secrets.go`. -/
structure Token where
  token : GoString
  b : GoString
  crc : GoString
  Valid : Bool
deriving DecidableEq, Repr

/-- Method `String`. -/
def Token.String (t : Token) : GoString := t.token

/-- Method `Len`: `len(t.token)`. -/
def Token.Len (t : Token) : Int := (t.token.length : Int)

/-- Method `Base62`. -/
def Token.Base62 (t : Token) : GoString := toBase62 t.token

/-- Function `makeToken`; `none` is the bounds panic of `b[crcIndex:]`. -/
def makeToken (b : GoString) : Option Token := do
  let crcIndex : Int := (b.length : Int) - crcLen
  let sum ← sliceFrom b crcIndex
  let r ← sliceTo b crcIndex
  pure { token := b, b := r, crc := sum, Valid := false }

/-- Function `Checksum`: `pad[:crcLen]` of `fmt.Sprintf("%06d", sum)`. -/
def Checksum (data : GoString) : Option GoString :=
  let sum := ChecksumIEEE data
  let pad := sprintfPadUint 6 sum
  sliceTo pad crcLen

/-- Function `Validate`: `Checksum(t.b) == t.crc`. -/
def Validate (t : Token) : Option Bool :=
  (Checksum t.b).map (fun c => decide (c = t.crc))

/-- Function `NewToken`: the token and the error it returns. -/
def NewToken (len : Int) (rd : RandRead) : Option (Token × Option GoError) := do
  let g ← genToken len rd
  match g.2 with
  | some e => pure ({ token := [], b := [], crc := [], Valid := false }, some e)
  | none =>
    let crc ← Checksum g.1
    let full := sprintfBytesPadStr g.1 6 crc
    pure ({ token := full, b := g.1, crc := crc, Valid := true }, none)

/-- Function `TokenFromString`. -/
def TokenFromString (s : GoString) : Option Token := do
  let t ← makeToken s
  let v ← Validate t
  pure { t with Valid := v }

/-- Function `TokenFromBase62`: the token and the error it returns. -/
def TokenFromBase62 (s : GoString) : Option (Token × Option GoError) :=
  match parseBase62 s with
  | .error e => pure ({ token := [], b := [], crc := [], Valid := false }, some e)
  | .ok b => do
    let t ← makeToken b
    let v ← Validate t
    pure ({ t with Valid := v }, none)

end Legacy

/-! ## Notions of the specification -/

/-- The non-negative integer whose big-endian representation is `b`. -/
def bigEndianValue (b : GoString) : Nat := Nat.ofDigits 256 ((b.map (fun v => v.val)).reverse)

/-- Digit character with digits, then lowercase `a`-`z` for the values 10 to
35, then uppercase `A`-`Z` for the values 36 to 61. -/
def lowerFirstDigit (d : Nat) : Byte :=
  if d < 10 then Fin.ofNat (48 + d)
  else if d < 36 then Fin.ofNat (97 + (d - 10))
  else Fin.ofNat (65 + (d - 36))

/-- Digit character with digits, then uppercase `A`-`Z` for the values 10 to
35, then lowercase `a`-`z` for the values 36 to 61. -/
def upperFirstDigit (d : Nat) : Byte :=
  if d < 10 then Fin.ofNat (48 + d)
  else if d < 36 then Fin.ofNat (65 + (d - 10))
  else Fin.ofNat (97 + (d - 36))

/-- The base-62 numeral of `n` written with the digit characters `digit`,
most significant digit first; `0` for zero. -/
def numeral62 (digit : Nat → Byte) (n : Nat) : GoString :=
  if n = 0 then [48] else ((Nat.digits 62 n).reverse).map digit

/-- What the claims compare of two parsed tokens: the `Valid` flag, the error
and the prefix. -/
def Token.outcome (t : Token) : Bool × Option GoError × GoString := (t.Valid, t.Err, t.Prefix)

/-! ## Sample values and auxiliary notions used in the statements -/

/-- A read of the random source that delivers nothing and reports an error. -/
def failedRead : RandRead := { data := [], err := some (GoError.new "entropy unavailable") }

/-- The token generated from the read `[1, 2, 200]` with `Len = 3`,
`CrcLen = 2` and prefix `bzt_`. -/
def tamperSample : Token :=
  { token := ascii "12E82", pfx := ascii "bzt_", b := ascii "12E", crc := ascii "82",
    Valid := true, err := none }

/-- The input of `nat.scan` once `scanSign` has consumed a leading sign. -/
def afterSign (s : GoString) : GoString :=
  match s with
  | [] => []
  | ch :: rest => if ch = 45 ∨ ch = 43 then rest else ch :: rest

/-- The token `NewToken` returns when the read of the random source fails. -/
def failedToken : Token :=
  { token := [], pfx := [], b := [], crc := [], Valid := false,
    err := some (GoError.new "entropy unavailable") }

/-- The token both inputs of the non-canonical example parse to. -/
def nonCanonicalSample : Token :=
  { token := ascii "a3", pfx := ascii "bzt_", b := ascii "a", crc := ascii "3",
    Valid := true, err := none }

/-- A configuration whose checksum width is above the largest width `fmt` pads to. -/
def wideConfig : TokenConfig := { Len := 1, CrcLen := 1000001, Prefix := [] }

/-- An input of `Len + CrcLen` bytes for `wideConfig`: 1 000 002 times `0`. -/
def wideInput : GoString := List.replicate 1000002 48

/-- The factory configuration `TokenConfig{Len: n, CrcLen: 6}` with no prefix,
for an `int` `n`. -/
def widthSixConfig (n : Int) (h : isInt n) : TokenConfig :=
  { Len := n, CrcLen := 6, Prefix := [], intLen := h }

/-! ## Auxiliary lemmas and the properties of the specification -/

theorem digitsLE_eq_digits (b : Nat) (hb : 2 ≤ b) :
    ∀ (fuel n : Nat), n ≤ fuel → digitsLE b fuel n = Nat.digits b n := by
  intro fuel
  induction fuel with
  | zero =>
    intro n hn
    have : n = 0 := by omega
    subst this
    simp [digitsLE]
  | succ k ih =>
    intro n hn
    by_cases h0 : n = 0
    · subst h0; simp [digitsLE]
    · have hpos : 0 < n := Nat.pos_of_ne_zero h0
      have hdiv : n / b ≤ k := by
        have : n / b < n := Nat.div_lt_self hpos (by omega)
        omega
      rw [Nat.digits_def' (by omega) hpos]
      simp [digitsLE, h0, ih (n / b) hdiv]

set_option maxRecDepth 20000 in
/-- The standard check value of CRC-32/IEEE: the CRC of `123456789` is `0xcbf43926`. -/
theorem ChecksumIEEE_check_value : ChecksumIEEE (ascii "123456789") = 0xcbf43926 := by
  decide

/-- Decimal rendering on a ten-digit value. -/
theorem formatUint_sample : formatUint 3421780262 = ascii "3421780262" := by
  decide

theorem val_ofNat_byte (a : Nat) : ((Fin.ofNat a : Byte)).val = a % 256 := rfl

theorem formatUint_digits (n : Nat) : ∀ c ∈ formatUint n, isDigitByte c := by
  intro c hc
  unfold formatUint at hc
  split at hc
  · simp at hc; subst hc; decide
  · rw [digitsLE_eq_digits 10 (by decide) n n (le_refl n)] at hc
    simp only [List.mem_map, List.mem_reverse] at hc
    obtain ⟨d, hd, rfl⟩ := hc
    have hlt : d < 10 := Nat.digits_lt_base (by decide) hd
    unfold isDigitByte
    rw [val_ofNat_byte]
    omega

theorem padWidth_length (w : Int) (hw : 0 ≤ w) (s : GoString) :
    (padWidth w s).length = max w.toNat s.length := by
  unfold padWidth
  rw [if_neg (by omega)]
  simp
  omega

theorem padWidth_digits (w : Int) (hw : 0 ≤ w) (s : GoString)
    (hs : ∀ c ∈ s, isDigitByte c) : ∀ c ∈ padWidth w s, isDigitByte c := by
  intro c hc
  unfold padWidth at hc
  rw [if_neg (by omega)] at hc
  rcases List.mem_append.mp hc with h | h
  · have := List.eq_of_mem_replicate h
    subst this; decide
  · exact hs c h

theorem padWidth_of_length (w : Int) (hw : 0 ≤ w) (s : GoString)
    (hs : s.length = w.toNat) : padWidth w s = s := by
  unfold padWidth
  rw [if_neg (by omega)]
  simp [hs]


/-! ### `int` arithmetic -/

theorem wrapInt_of_isInt (x : Int) (h : isInt x) : wrapInt x = x := by
  unfold isInt at h
  unfold wrapInt
  omega

theorem wrapInt_isInt (x : Int) : isInt (wrapInt x) := by
  unfold isInt wrapInt
  omega

theorem goLen_of_le {α : Type} (s : List α) (h : (s.length : Int) ≤ 9223372036854775807) :
    goLen s = (s.length : Int) := by
  unfold goLen wrapInt
  omega

theorem goLen_pfx (cfg : TokenConfig) : goLen cfg.Prefix = (cfg.Prefix.length : Int) :=
  goLen_of_le _ cfg.strPrefix

/-- When the length test passes with non-negative `Len` and `CrcLen`, the index
`crcIndex` is `Len` and lies inside the token. -/
theorem crcIndex_of_pass (cfg : TokenConfig) (token : GoString)
    (hl : goLen token = wrapInt (cfg.Len + cfg.CrcLen))
    (hLen : 0 ≤ cfg.Len) (hCrc : 0 ≤ cfg.CrcLen) :
    wrapInt (goLen token - cfg.CrcLen) = ((cfg.Len.toNat : Nat) : Int) ∧
      cfg.Len.toNat ≤ token.length := by
  have h1 := cfg.intLen
  have h2 := cfg.intCrcLen
  unfold isInt at h1 h2
  unfold goLen wrapInt at hl ⊢
  omega

/-- A token of exactly `Len + CrcLen` bytes passes the length test. -/
theorem goLen_of_exact (cfg : TokenConfig) (token : GoString)
    (hl : (token.length : Int) = cfg.Len + cfg.CrcLen) :
    goLen token = wrapInt (cfg.Len + cfg.CrcLen) := by
  unfold goLen
  rw [hl]

/-! ### The checksum -/

theorem crcShift_lt (c : Nat) (h : c < 2 ^ 32) : crcShift c < 2 ^ 32 := by
  unfold crcShift
  split
  · exact Nat.xor_lt_two_pow (by omega) (by decide)
  · omega

theorem crcTable_lt (i : Nat) (h : i < 2 ^ 32) : crcTable i < 2 ^ 32 := by
  unfold crcTable
  exact crcShift_lt _ (crcShift_lt _ (crcShift_lt _ (crcShift_lt _ (crcShift_lt _
    (crcShift_lt _ (crcShift_lt _ (crcShift_lt _ h)))))))

theorem crcStep_lt (crc : Nat) (v : Byte) (h : crc < 2 ^ 32) : crcStep crc v < 2 ^ 32 := by
  unfold crcStep
  apply Nat.xor_lt_two_pow
  · apply crcTable_lt
    have h8 : (crc % 256) ^^^ v.val < 2 ^ 8 :=
      Nat.xor_lt_two_pow (by omega) (by have := v.isLt; omega)
    omega
  · omega

theorem foldl_crcStep_lt (data : GoString) :
    ∀ crc, crc < 2 ^ 32 → data.foldl crcStep crc < 2 ^ 32 := by
  induction data with
  | nil => intro crc h; exact h
  | cons v rest ih => intro crc h; exact ih _ (crcStep_lt crc v h)

/-- The CRC is a 32-bit value. -/
theorem ChecksumIEEE_lt (data : GoString) : ChecksumIEEE data < 2 ^ 32 := by
  unfold ChecksumIEEE
  exact Nat.xor_lt_two_pow (foldl_crcStep_lt data _ (by decide)) (by decide)

theorem formatUint_length_le (n : Nat) (h : n < 2 ^ 32) : (formatUint n).length ≤ 10 := by
  unfold formatUint
  split
  · simp
  · rename_i h0
    rw [digitsLE_eq_digits 10 (by decide) n n (le_refl n), List.length_map,
      List.length_reverse]
    have hp := Nat.base_pow_length_digits_le 10 n (by decide) h0
    by_contra hgt
    have h11 : 10 ^ 11 ≤ 10 ^ (Nat.digits 10 n).length :=
      Nat.pow_le_pow_right (by decide) (by omega)
    have : (10 : Nat) ^ 11 = 100000000000 := by norm_num
    omega

theorem starWidth_of_cap (w : Int) (h0 : 0 ≤ w) (hcap : w ≤ 1000000) (s : GoString) :
    starWidth w s = padWidth w s := by
  unfold starWidth tooLarge
  rw [if_neg (by omega)]

theorem Checksum_eq (f : TokenFactory) (data : GoString) (hw : 0 ≤ f.cfg.CrcLen)
    (hcap : f.cfg.CrcLen ≤ 1000000) :
    f.Checksum data =
      some ((padWidth f.cfg.CrcLen (formatUint (ChecksumIEEE data))).take
        f.cfg.CrcLen.toNat) := by
  unfold TokenFactory.Checksum sliceTo
  have hl := padWidth_length f.cfg.CrcLen hw (formatUint (ChecksumIEEE data))
  simp only [sprintfPadUint, starWidth_of_cap _ hw hcap]
  rw [if_pos]
  constructor
  · exact hw
  · rw [hl]; omega

theorem Checksum_length (f : TokenFactory) (data c : GoString)
    (h : f.Checksum data = some c) : (c.length : Int) = f.cfg.CrcLen := by
  unfold TokenFactory.Checksum sliceTo at h
  simp only at h
  split at h
  · rename_i hb
    injection h with h
    subst h
    rw [List.length_take]
    omega
  · cases h

/-- The checksum panics for a negative width and for a width above 1 000 000,
where `fmt` does not pad. -/
theorem Checksum_none (f : TokenFactory) (data : GoString)
    (h : f.cfg.CrcLen < 0 ∨ 1000000 < f.cfg.CrcLen) : f.Checksum data = none := by
  unfold TokenFactory.Checksum sliceTo
  simp only
  rw [if_neg]
  rintro ⟨h0, hle⟩
  rcases h with h | h
  · omega
  · have hd := formatUint_length_le _ (ChecksumIEEE_lt data)
    have hb : badWidthString.length = 12 := by decide
    unfold sprintfPadUint starWidth tooLarge at hle
    rw [if_pos (Or.inl h), List.length_append, hb] at hle
    omega

theorem Checksum_cap (f : TokenFactory) (data c : GoString) (h : f.Checksum data = some c) :
    0 ≤ f.cfg.CrcLen ∧ f.cfg.CrcLen ≤ 1000000 := by
  by_contra hn
  rw [Checksum_none f data (by omega)] at h
  cases h

theorem Checksum_digits (f : TokenFactory) (data c : GoString)
    (h : f.Checksum data = some c) : ∀ x ∈ c, isDigitByte x := by
  obtain ⟨hw, hcap⟩ := Checksum_cap f data c h
  rw [Checksum_eq f data hw hcap] at h
  injection h with h
  subst h
  intro x hx
  exact padWidth_digits _ hw _ (formatUint_digits _) x (List.mem_of_mem_take hx)

theorem sliceTo_of_le {α : Type} (s : List α) (n : Nat) (h : n ≤ s.length) :
    sliceTo s (n : Int) = some (s.take n) := by
  simp [sliceTo, h]

theorem sliceFrom_of_le {α : Type} (s : List α) (n : Nat) (h : n ≤ s.length) :
    sliceFrom s (n : Int) = some (s.drop n) := by
  simp [sliceFrom, h]

theorem sliceTo_of_gt {α : Type} (s : List α) (n : Nat) (h : s.length < n) :
    sliceTo s (n : Int) = none := by
  simp [sliceTo]; omega

theorem letterOf_alnum (v : Byte) : isAlnumByte (letterOf v) := by
  have h : ∀ i : Fin 62, isAlnumByte (letters.getD i.val 0) := by decide
  have hlt : v.val % lettersSize < 62 := Nat.mod_lt _ (by decide)
  exact h ⟨v.val % lettersSize, hlt⟩

theorem randRead_length (rd : RandRead) (buf : GoString) :
    (randRead rd buf).1.length = buf.length := by
  simp [randRead]
  omega

theorem genToken_eq (n : Int) (hn : 0 ≤ n) (rd : RandRead) :
    genToken n rd =
      some ((randRead rd (List.replicate n.toNat 0)).1.map letterOf, rd.err) := by
  unfold genToken
  rw [if_neg (by omega)]
  rfl

/-- The payload `genToken` produces from the read `rd`. -/
theorem genToken_payload_length (n : Int) (hn : 0 ≤ n) (rd : RandRead) :
    ((((randRead rd (List.replicate n.toNat 0)).1.map letterOf).length : Nat) : Int) = n := by
  rw [List.length_map, randRead_length, List.length_replicate]
  omega

theorem NewToken_ok (f : TokenFactory) (rd : RandRead) (hLen : 0 ≤ f.cfg.Len)
    (hCrc : 0 ≤ f.cfg.CrcLen) (hcap : f.cfg.CrcLen ≤ 1000000) (hok : rd.err = none) :
    ∃ payload crc, f.NewToken rd =
        some { token := payload ++ crc, pfx := f.cfg.Prefix, b := payload, crc := crc,
               Valid := true, err := none } ∧
      payload = (randRead rd (List.replicate f.cfg.Len.toNat 0)).1.map letterOf ∧
      f.Checksum payload = some crc := by
  have hc := Checksum_eq f ((randRead rd (List.replicate f.cfg.Len.toNat 0)).1.map letterOf)
    hCrc hcap
  have hl := Checksum_length f _ _ hc
  refine ⟨_, _, ?_, rfl, hc⟩
  unfold TokenFactory.NewToken
  rw [genToken_eq _ hLen]
  simp only [Option.bind_eq_bind, Option.some_bind, hok, hc, sprintfBytesPadStr, Option.pure_def,
    starWidth_of_cap _ hCrc hcap]
  rw [padWidth_of_length _ hCrc _ (by omega)]

theorem NewToken_fail (f : TokenFactory) (rd : RandRead) (hLen : 0 ≤ f.cfg.Len)
    (e : GoError) (herr : rd.err = some e) :
    f.NewToken rd =
      some { token := [], pfx := [], b := [], crc := [], Valid := false, err := some e } := by
  unfold TokenFactory.NewToken
  rw [genToken_eq _ hLen]
  simp [herr]

/-- The call `NewToken` panics on a negative `Len`, and after a successful read
on a `CrcLen` that is negative or above 1 000 000. -/
theorem NewToken_none (f : TokenFactory) (rd : RandRead)
    (h : f.cfg.Len < 0 ∨ (rd.err = none ∧ (f.cfg.CrcLen < 0 ∨ 1000000 < f.cfg.CrcLen))) :
    f.NewToken rd = none := by
  unfold TokenFactory.NewToken
  by_cases hLen : f.cfg.Len < 0
  · simp [genToken, hLen]
  · rcases h with h | ⟨hok, hc⟩
    · exact absurd h hLen
    · rw [genToken_eq _ (by omega)]
      simp only [Option.bind_eq_bind, Option.some_bind, hok, Checksum_none f _ hc,
        Option.none_bind]

/-- A token comes back from `NewToken` only in the two ways of the source: the
error token of a failed read, or the assembled token. -/
theorem NewToken_some (f : TokenFactory) (rd : RandRead) (t : Token)
    (ht : f.NewToken rd = some t) :
    0 ≤ f.cfg.Len ∧
    ((∃ e, rd.err = some e ∧
        t = { token := [], pfx := [], b := [], crc := [], Valid := false, err := some e }) ∨
      (rd.err = none ∧ 0 ≤ f.cfg.CrcLen ∧ f.cfg.CrcLen ≤ 1000000 ∧
        ∃ payload crc,
          t = { token := payload ++ crc, pfx := f.cfg.Prefix, b := payload, crc := crc,
                Valid := true, err := none } ∧
          payload = (randRead rd (List.replicate f.cfg.Len.toNat 0)).1.map letterOf ∧
          f.Checksum payload = some crc)) := by
  have hLen : 0 ≤ f.cfg.Len := by
    by_contra hn
    rw [NewToken_none f rd (Or.inl (by omega))] at ht
    cases ht
  refine ⟨hLen, ?_⟩
  cases herr : rd.err with
  | some e =>
    rw [NewToken_fail f rd hLen e herr] at ht
    injection ht with ht
    exact Or.inl ⟨e, rfl, ht.symm⟩
  | none =>
    right
    have hcap : 0 ≤ f.cfg.CrcLen ∧ f.cfg.CrcLen ≤ 1000000 := by
      by_contra hn
      rw [NewToken_none f rd (Or.inr ⟨herr, by omega⟩)] at ht
      cases ht
    obtain ⟨payload, crc, hnew, hpay, hsum⟩ := NewToken_ok f rd hLen hcap.1 hcap.2 herr
    rw [hnew] at ht
    injection ht with ht
    exact ⟨rfl, hcap.1, hcap.2, payload, crc, ht.symm, hpay, hsum⟩

/-! ### The outcomes of `makeToken` -/

theorem sliceFrom_none_of_bad {α : Type} (s : List α) (k : Int)
    (h : ¬ (0 ≤ k ∧ k ≤ (s.length : Int))) : sliceFrom s k = none := by
  unfold sliceFrom
  rw [if_neg h]

theorem makeToken_short (f : TokenFactory) (s : GoString) (parser : parseFunc)
    (h : s.length < f.cfg.Prefix.length) : f.makeToken s parser = none := by
  unfold TokenFactory.makeToken
  simp [goLen_pfx, sliceTo_of_gt s _ h]

theorem makeToken_parse_error (f : TokenFactory) (s : GoString) (parser : parseFunc)
    (e : GoError) (h : f.cfg.Prefix.length ≤ s.length)
    (hp : parser (s.drop f.cfg.Prefix.length) = .error e) :
    f.makeToken s parser =
      some { token := s.drop f.cfg.Prefix.length, pfx := s.take f.cfg.Prefix.length,
             b := [], crc := [], Valid := false, err := some e } := by
  unfold TokenFactory.makeToken
  simp [goLen_pfx, sliceTo_of_le s _ h, sliceFrom_of_le s _ h, hp]

theorem makeToken_bad_length (f : TokenFactory) (s token : GoString) (parser : parseFunc)
    (h : f.cfg.Prefix.length ≤ s.length)
    (hp : parser (s.drop f.cfg.Prefix.length) = .ok token)
    (hl : goLen token ≠ wrapInt (f.cfg.Len + f.cfg.CrcLen)) :
    f.makeToken s parser =
      some { token := s.drop f.cfg.Prefix.length, pfx := s.take f.cfg.Prefix.length,
             b := [], crc := [], Valid := false,
             err := some (GoError.new "invalid length") } := by
  unfold TokenFactory.makeToken
  simp [goLen_pfx, sliceTo_of_le s _ h, sliceFrom_of_le s _ h, hp, hl]

theorem makeToken_wrong_pfx (f : TokenFactory) (s token : GoString) (parser : parseFunc)
    (h : f.cfg.Prefix.length ≤ s.length)
    (hp : parser (s.drop f.cfg.Prefix.length) = .ok token)
    (hl : goLen token = wrapInt (f.cfg.Len + f.cfg.CrcLen))
    (hpre : s.take f.cfg.Prefix.length ≠ f.cfg.Prefix) :
    f.makeToken s parser =
      some { token := s.drop f.cfg.Prefix.length, pfx := s.take f.cfg.Prefix.length,
             b := [], crc := [], Valid := false,
             err := some (GoError.new "invalid prefix") } := by
  unfold TokenFactory.makeToken
  simp [goLen_pfx, sliceTo_of_le s _ h, sliceFrom_of_le s _ h, hp, hl, hpre]

/-- Past the length and prefix tests the result depends on the token alone:
the two slices at `crcIndex`, then the checksum test. -/
theorem makeToken_pass (f : TokenFactory) (s token : GoString) (parser : parseFunc)
    (h : f.cfg.Prefix.length ≤ s.length)
    (hp : parser (s.drop f.cfg.Prefix.length) = .ok token)
    (hl : goLen token = wrapInt (f.cfg.Len + f.cfg.CrcLen))
    (hpre : s.take f.cfg.Prefix.length = f.cfg.Prefix) :
    f.makeToken s parser =
      (sliceFrom token (wrapInt (goLen token - f.cfg.CrcLen))).bind fun sum =>
        (sliceTo token (wrapInt (goLen token - f.cfg.CrcLen))).bind fun r =>
          (f.Checksum r).bind fun c =>
            some (if c = sum then
                { token := token, pfx := f.cfg.Prefix, b := r, crc := sum, Valid := true,
                  err := none }
              else
                { token := token, pfx := f.cfg.Prefix, b := r, crc := sum, Valid := false,
                  err := some (GoError.new "invalid crc") }) := by
  unfold TokenFactory.makeToken
  rw [goLen_pfx]
  simp only [sliceTo_of_le s _ h, sliceFrom_of_le s _ h, Option.bind_eq_bind, Option.some_bind]
  simp only [hp]
  rw [if_neg (not_not.mpr hl), if_neg (not_not.mpr hpre)]
  simp only [hpre, TokenFactory.Validate, Option.pure_def]
  generalize wrapInt (goLen token - f.cfg.CrcLen) = idx
  cases sliceFrom token idx with
  | none => simp only [Option.none_bind]
  | some sum =>
    cases sliceTo token idx with
    | none => simp only [Option.none_bind, Option.some_bind]
    | some r =>
      simp only [Option.some_bind]
      cases f.Checksum r with
      | none => simp only [Option.none_bind, Option.map_none']
      | some c =>
        simp only [Option.some_bind, Option.map_some']
        by_cases hv : c = sum
        · simp only [hv, decide_True, if_true]
        · simp only [hv, decide_False, if_false, Bool.false_eq_true]

/-- Past the two tests with `crcIndex = k` inside the token and a checksum that
is computed. -/
theorem makeToken_checked_at (f : TokenFactory) (s token c : GoString) (parser : parseFunc)
    (k : Nat) (h : f.cfg.Prefix.length ≤ s.length)
    (hp : parser (s.drop f.cfg.Prefix.length) = .ok token)
    (hl : goLen token = wrapInt (f.cfg.Len + f.cfg.CrcLen))
    (hpre : s.take f.cfg.Prefix.length = f.cfg.Prefix)
    (hk : wrapInt (goLen token - f.cfg.CrcLen) = ((k : Nat) : Int)) (hkl : k ≤ token.length)
    (hc : f.Checksum (token.take k) = some c) :
    f.makeToken s parser =
      some (if c = token.drop k then
          { token := token, pfx := f.cfg.Prefix, b := token.take k,
            crc := token.drop k, Valid := true, err := none }
        else
          { token := token, pfx := f.cfg.Prefix, b := token.take k,
            crc := token.drop k, Valid := false,
            err := some (GoError.new "invalid crc") }) := by
  rw [makeToken_pass f s token parser h hp hl hpre, hk, sliceFrom_of_le token k hkl,
    sliceTo_of_le token k hkl]
  simp only [Option.some_bind, hc]

/-- The same for a token of exactly `Len + CrcLen` bytes: `crcIndex` is `Len`. -/
theorem makeToken_checked (f : TokenFactory) (s token c : GoString) (parser : parseFunc)
    (h : f.cfg.Prefix.length ≤ s.length)
    (hp : parser (s.drop f.cfg.Prefix.length) = .ok token)
    (hl : (token.length : Int) = f.cfg.Len + f.cfg.CrcLen)
    (hpre : s.take f.cfg.Prefix.length = f.cfg.Prefix)
    (hLen : 0 ≤ f.cfg.Len) (hCrc : 0 ≤ f.cfg.CrcLen)
    (hc : f.Checksum (token.take f.cfg.Len.toNat) = some c) :
    f.makeToken s parser =
      some (if c = token.drop f.cfg.Len.toNat then
          { token := token, pfx := f.cfg.Prefix, b := token.take f.cfg.Len.toNat,
            crc := token.drop f.cfg.Len.toNat, Valid := true, err := none }
        else
          { token := token, pfx := f.cfg.Prefix, b := token.take f.cfg.Len.toNat,
            crc := token.drop f.cfg.Len.toNat, Valid := false,
            err := some (GoError.new "invalid crc") }) := by
  have hg := goLen_of_exact f.cfg token hl
  have hi := crcIndex_of_pass f.cfg token hg hLen hCrc
  exact makeToken_checked_at f s token c parser _ h hp hg hpre hi.1 hi.2 hc

theorem FromString_prefixed (f : TokenFactory) (body c : GoString)
    (hl : (body.length : Int) = f.cfg.Len + f.cfg.CrcLen)
    (hLen : 0 ≤ f.cfg.Len) (hCrc : 0 ≤ f.cfg.CrcLen)
    (hc : f.Checksum (body.take f.cfg.Len.toNat) = some c) :
    f.FromString (f.cfg.Prefix ++ body) =
      some (if c = body.drop f.cfg.Len.toNat then
          { token := body, pfx := f.cfg.Prefix, b := body.take f.cfg.Len.toNat,
            crc := body.drop f.cfg.Len.toNat, Valid := true, err := none }
        else
          { token := body, pfx := f.cfg.Prefix, b := body.take f.cfg.Len.toNat,
            crc := body.drop f.cfg.Len.toNat, Valid := false,
            err := some (GoError.new "invalid crc") }) := by
  unfold TokenFactory.FromString
  exact makeToken_checked f (f.cfg.Prefix ++ body) body c _ (by simp) (by simp) hl (by simp)
    hLen hCrc hc

/-- Past the two tests `makeToken` panics when `CrcLen` is negative or above
1 000 000: at one of the two slices, or else in `Checksum`. -/
theorem makeToken_none_of_bad_width (f : TokenFactory) (s token : GoString)
    (parser : parseFunc) (h : f.cfg.Prefix.length ≤ s.length)
    (hp : parser (s.drop f.cfg.Prefix.length) = .ok token)
    (hl : goLen token = wrapInt (f.cfg.Len + f.cfg.CrcLen))
    (hpre : s.take f.cfg.Prefix.length = f.cfg.Prefix)
    (hw : f.cfg.CrcLen < 0 ∨ 1000000 < f.cfg.CrcLen) : f.makeToken s parser = none := by
  rw [makeToken_pass f s token parser h hp hl hpre]
  generalize wrapInt (goLen token - f.cfg.CrcLen) = idx
  cases sliceFrom token idx with
  | none => simp only [Option.none_bind]
  | some sum =>
    cases sliceTo token idx with
    | none => simp only [Option.none_bind, Option.some_bind]
    | some r => simp only [Option.some_bind, Checksum_none f r hw, Option.none_bind]


/-- The outcomes of `makeToken` on an input at least as long as the prefix. -/
theorem makeToken_cases (f : TokenFactory) (s : GoString) (parser : parseFunc)
    (h : f.cfg.Prefix.length ≤ s.length) :
    (∃ e, parser (s.drop f.cfg.Prefix.length) = .error e ∧
      f.makeToken s parser =
        some { token := s.drop f.cfg.Prefix.length, pfx := s.take f.cfg.Prefix.length,
               b := [], crc := [], Valid := false, err := some e }) ∨
    (∃ token, parser (s.drop f.cfg.Prefix.length) = .ok token ∧
      goLen token ≠ wrapInt (f.cfg.Len + f.cfg.CrcLen) ∧
      f.makeToken s parser =
        some { token := s.drop f.cfg.Prefix.length, pfx := s.take f.cfg.Prefix.length,
               b := [], crc := [], Valid := false,
               err := some (GoError.new "invalid length") }) ∨
    (∃ token, parser (s.drop f.cfg.Prefix.length) = .ok token ∧
      goLen token = wrapInt (f.cfg.Len + f.cfg.CrcLen) ∧
      s.take f.cfg.Prefix.length ≠ f.cfg.Prefix ∧
      f.makeToken s parser =
        some { token := s.drop f.cfg.Prefix.length, pfx := s.take f.cfg.Prefix.length,
               b := [], crc := [], Valid := false,
               err := some (GoError.new "invalid prefix") }) ∨
    (∃ token, parser (s.drop f.cfg.Prefix.length) = .ok token ∧
      goLen token = wrapInt (f.cfg.Len + f.cfg.CrcLen) ∧
      s.take f.cfg.Prefix.length = f.cfg.Prefix ∧
      (¬ (0 ≤ wrapInt (goLen token - f.cfg.CrcLen) ∧
          wrapInt (goLen token - f.cfg.CrcLen) ≤ (token.length : Int)) ∨
        f.cfg.CrcLen < 0 ∨ 1000000 < f.cfg.CrcLen) ∧
      f.makeToken s parser = none) ∨
    (∃ token c k, parser (s.drop f.cfg.Prefix.length) = .ok token ∧
      goLen token = wrapInt (f.cfg.Len + f.cfg.CrcLen) ∧
      s.take f.cfg.Prefix.length = f.cfg.Prefix ∧
      wrapInt (goLen token - f.cfg.CrcLen) = ((k : Nat) : Int) ∧ k ≤ token.length ∧
      0 ≤ f.cfg.CrcLen ∧ f.cfg.CrcLen ≤ 1000000 ∧
      f.Checksum (token.take k) = some c ∧
      f.makeToken s parser =
        some (if c = token.drop k then
            { token := token, pfx := f.cfg.Prefix, b := token.take k,
              crc := token.drop k, Valid := true, err := none }
          else
            { token := token, pfx := f.cfg.Prefix, b := token.take k,
              crc := token.drop k, Valid := false,
              err := some (GoError.new "invalid crc") })) := by
  cases hp : parser (s.drop f.cfg.Prefix.length) with
  | error e => exact Or.inl ⟨e, rfl, makeToken_parse_error f s parser e h hp⟩
  | ok token =>
    by_cases hl : goLen token = wrapInt (f.cfg.Len + f.cfg.CrcLen)
    · by_cases hpre : s.take f.cfg.Prefix.length = f.cfg.Prefix
      · by_cases hidx : 0 ≤ wrapInt (goLen token - f.cfg.CrcLen) ∧
            wrapInt (goLen token - f.cfg.CrcLen) ≤ (token.length : Int)
        · have hk : wrapInt (goLen token - f.cfg.CrcLen) =
              (((wrapInt (goLen token - f.cfg.CrcLen)).toNat : Nat) : Int) := by omega
          have hkl : (wrapInt (goLen token - f.cfg.CrcLen)).toNat ≤ token.length := by omega
          by_cases hcap : 0 ≤ f.cfg.CrcLen ∧ f.cfg.CrcLen ≤ 1000000
          · have hc := Checksum_eq f
              (token.take (wrapInt (goLen token - f.cfg.CrcLen)).toNat) hcap.1 hcap.2
            exact Or.inr (Or.inr (Or.inr (Or.inr ⟨token, _, _, rfl, hl, hpre, hk, hkl,
              hcap.1, hcap.2, hc,
              makeToken_checked_at f s token _ parser _ h hp hl hpre hk hkl hc⟩)))
          · refine Or.inr (Or.inr (Or.inr (Or.inl ⟨token, rfl, hl, hpre,
              Or.inr (by omega), ?_⟩)))
            rw [makeToken_pass f s token parser h hp hl hpre, hk,
              sliceFrom_of_le token _ hkl, sliceTo_of_le token _ hkl]
            simp only [Option.some_bind, Checksum_none f _ (by omega), Option.none_bind]
        · refine Or.inr (Or.inr (Or.inr (Or.inl ⟨token, rfl, hl, hpre, Or.inl hidx, ?_⟩)))
          rw [makeToken_pass f s token parser h hp hl hpre, sliceFrom_none_of_bad _ _ hidx]
          simp only [Option.none_bind]
      · exact Or.inr (Or.inr (Or.inl ⟨token, rfl, hl, hpre,
          makeToken_wrong_pfx f s token parser h hp hl hpre⟩))
    · exact Or.inr (Or.inl ⟨token, rfl, hl, makeToken_bad_length f s token parser h hp hl⟩)

/-- A token returned by `makeToken` has no error exactly when it is valid. -/
theorem makeToken_err_iff_valid (f : TokenFactory) (s : GoString) (parser : parseFunc)
    (t : Token) (ht : f.makeToken s parser = some t) : t.Err = none ↔ t.Valid = true := by
  by_cases h : f.cfg.Prefix.length ≤ s.length
  · rcases makeToken_cases f s parser h with ⟨e, _, hm⟩ | ⟨token, _, _, hm⟩ |
      ⟨token, _, _, _, hm⟩ | ⟨token, _, _, _, _, hm⟩ | ⟨token, c, k, _, _, _, _, _, _, _, _, hm⟩
    · rw [hm] at ht; injection ht with ht; subst ht; simp [Token.Err]
    · rw [hm] at ht; injection ht with ht; subst ht; simp [Token.Err]
    · rw [hm] at ht; injection ht with ht; subst ht; simp [Token.Err]
    · rw [hm] at ht; cases ht
    · rw [hm] at ht; injection ht with ht; subst ht
      by_cases hv : c = token.drop k
      · rw [if_pos hv]; simp [Token.Err]
      · rw [if_neg hv]; simp [Token.Err]
  · rw [makeToken_short f s parser (by omega)] at ht
    cases ht

/-- With `Len ≥ 0` and `0 ≤ CrcLen ≤ 1000000`, `makeToken` returns a token for
every input at least as long as the prefix. -/
theorem makeToken_returns (f : TokenFactory) (s : GoString) (parser : parseFunc)
    (h : f.cfg.Prefix.length ≤ s.length) (hLen : 0 ≤ f.cfg.Len) (hCrc : 0 ≤ f.cfg.CrcLen)
    (hcap : f.cfg.CrcLen ≤ 1000000) :
    ∃ t, f.makeToken s parser = some t := by
  rcases makeToken_cases f s parser h with ⟨e, _, hm⟩ | ⟨token, _, _, hm⟩ |
    ⟨token, _, _, _, hm⟩ | ⟨token, _, hl, _, hbad, _⟩ |
    ⟨token, c, k, _, _, _, _, _, _, _, _, hm⟩
  · exact ⟨_, hm⟩
  · exact ⟨_, hm⟩
  · exact ⟨_, hm⟩
  · have hi := crcIndex_of_pass f.cfg token hl hLen hCrc
    omega
  · exact ⟨_, hm⟩

theorem contains_invalid_crc : (GoError.new "invalid crc").Contains "invalid crc" :=
  fun _ => ⟨[], [], rfl⟩

theorem contains_length : (GoError.new "invalid length").Contains "length" :=
  fun _ => ⟨"invalid ".data, [], rfl⟩

theorem contains_pfx_text : (GoError.new "invalid prefix").Contains "prefix" :=
  fun _ => ⟨"invalid ".data, [], rfl⟩


/-- C1 (amended): when the random source succeeds and `CrcLen` is at most
1 000 000, parsing the string of a generated token gives back a valid token with
the same string. -/
theorem string_round_trip (cfg : TokenConfig) (rd : RandRead)
    (hLen : 0 < cfg.Len) (hCrc : 0 < cfg.CrcLen) (hCap : cfg.CrcLen ≤ 1000000)
    (hok : rd.err = none) :
    ∃ t t2, (NewTokenFactory cfg).NewToken rd = some t ∧
      (NewTokenFactory cfg).FromString t.String = some t2 ∧
      t2.String = t.String ∧ t2.Valid = true := by
  obtain ⟨payload, crc, hnew, hpay, hsum⟩ :=
    NewToken_ok (NewTokenFactory cfg) rd (le_of_lt hLen) (le_of_lt hCrc) hCap hok
  have hpl : (payload.length : Int) = cfg.Len := by
    rw [hpay]; exact genToken_payload_length cfg.Len (le_of_lt hLen) rd
  have hcl : (crc.length : Int) = cfg.CrcLen := Checksum_length _ _ _ hsum
  have hpl2 : payload.length = cfg.Len.toNat := by omega
  have htake : (payload ++ crc).take cfg.Len.toNat = payload := by
    rw [← hpl2]; simp
  have hdrop : (payload ++ crc).drop cfg.Len.toNat = crc := by
    rw [← hpl2]; simp
  have hfs := FromString_prefixed (NewTokenFactory cfg) (payload ++ crc) crc
    (by simp [NewTokenFactory]; omega) (le_of_lt hLen) (le_of_lt hCrc)
    (by rw [show (NewTokenFactory cfg).cfg.Len = cfg.Len from rfl, htake]; exact hsum)
  rw [show (NewTokenFactory cfg).cfg.Len = cfg.Len from rfl, hdrop, if_pos rfl] at hfs
  exact ⟨_, _, hnew, hfs, rfl, rfl⟩

/-- C1 witness: the amended round trip at the default configuration and a read
that delivers `[7, 200, 61]` without error. -/
theorem string_round_trip_witness :
    (0 < ConfigDefault.Len ∧ 0 < ConfigDefault.CrcLen ∧ ConfigDefault.CrcLen ≤ 1000000 ∧
      (⟨[7, 200, 61], none⟩ : RandRead).err = none) ∧
    ∃ t t2, (NewTokenFactory ConfigDefault).NewToken ⟨[7, 200, 61], none⟩ = some t ∧
      (NewTokenFactory ConfigDefault).FromString t.String = some t2 ∧
      t2.String = t.String ∧ t2.Valid = true :=
  ⟨⟨by decide, by decide, by decide, rfl⟩,
    string_round_trip ConfigDefault ⟨[7, 200, 61], none⟩ (by decide) (by decide) (by decide)
      rfl⟩

/-- C1 as stated fails in two ways. When the read of the random source returns
an error, `NewToken` gives the empty invalid token, whose string `FromString`
rejects. With `CrcLen = 1000001` and a read that succeeds, `NewToken` panics in
`Checksum`: no token is generated. -/
theorem string_round_trip_fails :
    (0 < ConfigDefault.Len ∧ 0 < ConfigDefault.CrcLen ∧
      (NewTokenFactory ConfigDefault).NewToken failedRead = some failedToken ∧
      (NewTokenFactory ConfigDefault).FromString failedToken.String =
        some { token := [], pfx := [], b := [], crc := [], Valid := false,
               err := some (GoError.new "invalid length") }) ∧
    ((0 : Int) < 1 ∧ (0 : Int) < 1000001 ∧ (⟨[7], none⟩ : RandRead).err = none ∧
      (NewTokenFactory { Len := 1, CrcLen := 1000001, Prefix := [] }).NewToken
        ⟨[7], none⟩ = none) := by
  decide

/-- C3: with prefix `bzt_` the two-byte input `ab` makes `FromString` panic at
`s[:prLen]`; no token is returned. -/
theorem FromString_short_input_panics :
    (NewTokenFactory { Len := 30, CrcLen := 6, Prefix := ascii "bzt_" }).FromString
      (ascii "ab") = none := by
  decide

/-- An input shorter than the configured prefix makes `FromString` panic. -/
theorem FromString_short (cfg : TokenConfig) (s : GoString)
    (h : s.length < cfg.Prefix.length) : (NewTokenFactory cfg).FromString s = none :=
  makeToken_short (NewTokenFactory cfg) s _ h


/-- C6 (amended): an input at least as long as the prefix whose body length, as
`len` reports it, is not the `int` sum `Len + CrcLen` (which wraps around on
overflow) is rejected with "invalid length", whatever its prefix. -/
theorem length_rejection (cfg : TokenConfig) (s : GoString)
    (hs : cfg.Prefix.length ≤ s.length)
    (hl : goLen (s.drop cfg.Prefix.length) ≠ wrapInt (cfg.Len + cfg.CrcLen)) :
    ∃ t, (NewTokenFactory cfg).FromString s = some t ∧ t.Valid = false ∧
      t.Err = some (GoError.new "invalid length") ∧
      (GoError.new "invalid length").Contains "length" :=
  ⟨_, makeToken_bad_length (NewTokenFactory cfg) s _ _ hs rfl hl, rfl, rfl, contains_length⟩

/-- C6 witness: prefix `bzt_`, `Len = 30`, `CrcLen = 6` and the nine-byte input
`wro_12345`, whose prefix is wrong as well. -/
theorem length_rejection_witness :
    ((ascii "bzt_").length ≤ (ascii "wro_12345").length ∧
      goLen ((ascii "wro_12345").drop (ascii "bzt_").length) ≠ wrapInt ((30 : Int) + 6)) ∧
    ∃ t, (NewTokenFactory { Len := 30, CrcLen := 6, Prefix := ascii "bzt_" }).FromString
        (ascii "wro_12345") = some t ∧ t.Valid = false ∧
      t.Err = some (GoError.new "invalid length") ∧
      (GoError.new "invalid length").Contains "length" :=
  ⟨⟨by decide, by decide⟩,
    length_rejection { Len := 30, CrcLen := 6, Prefix := ascii "bzt_" } (ascii "wro_12345")
      (by decide) (by decide)⟩

/-- C6 as stated fails when the sum overflows: with `Len = CrcLen = -2^63` the
`int` sum `Len + CrcLen` is 0, so the empty input, whose body length 0 differs
from the integer `Len + CrcLen = -2^64`, passes the length test and
`FromString` panics at `token[crcIndex:]`. -/
theorem length_rejection_fails_on_overflow :
    ([] : GoString).length ≤ ([] : GoString).length ∧
    ((([] : GoString).length : Nat) : Int) - ((([] : GoString).length : Nat) : Int) ≠
      (-9223372036854775808 : Int) + (-9223372036854775808 : Int) ∧
    wrapInt ((-9223372036854775808 : Int) + (-9223372036854775808 : Int)) = 0 ∧
    (NewTokenFactory { Len := -9223372036854775808, CrcLen := -9223372036854775808,
                       Prefix := [] }).FromString [] = none := by
  decide

/-- C7: an input of the full expected length whose slice `s[:len(Prefix)]`
differs from a non-empty configured prefix is rejected with "invalid prefix",
whatever its checksum. -/
theorem prefix_rejection (cfg : TokenConfig) (s : GoString)
    (_hne : cfg.Prefix ≠ [])
    (hl : (s.length : Int) = (cfg.Prefix.length : Int) + cfg.Len + cfg.CrcLen)
    (hp : ∃ p, sliceTo s (cfg.Prefix.length : Int) = some p ∧ p ≠ cfg.Prefix) :
    ∃ t, (NewTokenFactory cfg).FromString s = some t ∧ t.Valid = false ∧
      t.Err = some (GoError.new "invalid prefix") ∧
      (GoError.new "invalid prefix").Contains "prefix" := by
  obtain ⟨p, hp1, hp2⟩ := hp
  have hs : cfg.Prefix.length ≤ s.length := by
    by_contra hlt
    rw [sliceTo_of_gt s _ (by omega)] at hp1
    cases hp1
  rw [sliceTo_of_le s _ hs] at hp1
  injection hp1 with hp1
  subst hp1
  refine ⟨_, makeToken_wrong_pfx (NewTokenFactory cfg) s _ _ hs rfl
    (goLen_of_exact cfg _ ?_) hp2, rfl, rfl, contains_pfx_text⟩
  simp only [NewTokenFactory, List.length_drop]
  omega

/-- C7 witness: prefix `bz`, `Len = 2`, `CrcLen = 2` and the input `wr1200`. -/
theorem prefix_rejection_witness :
    ((ascii "bz") ≠ [] ∧
      (((ascii "wr1200").length : Nat) : Int) = (((ascii "bz").length : Nat) : Int) + 2 + 2 ∧
      ∃ p, sliceTo (ascii "wr1200") (((ascii "bz").length : Nat) : Int) = some p ∧
        p ≠ ascii "bz") ∧
    ∃ t, (NewTokenFactory { Len := 2, CrcLen := 2, Prefix := ascii "bz" }).FromString
        (ascii "wr1200") = some t ∧ t.Valid = false ∧
      t.Err = some (GoError.new "invalid prefix") ∧
      (GoError.new "invalid prefix").Contains "prefix" :=
  ⟨⟨by decide, by decide, ⟨ascii "wr", by decide, by decide⟩⟩,
    prefix_rejection { Len := 2, CrcLen := 2, Prefix := ascii "bz" } (ascii "wr1200")
      (by decide) (by decide) ⟨ascii "wr", by decide, by decide⟩⟩


/-- A token whose length passes the length test without being `Len + CrcLen`
does not carry its own checksum: it is longer than `Len + CrcLen`. -/
theorem checksum_mismatch_of_inexact (f : TokenFactory) (token c : GoString) (k : Nat)
    (hl : goLen token = wrapInt (f.cfg.Len + f.cfg.CrcLen))
    (hLen : 0 ≤ f.cfg.Len) (hCrc : 0 ≤ f.cfg.CrcLen)
    (hk : wrapInt (goLen token - f.cfg.CrcLen) = ((k : Nat) : Int))
    (hc : (c.length : Int) = f.cfg.CrcLen)
    (hne : (token.length : Int) ≠ f.cfg.Len + f.cfg.CrcLen) : c ≠ token.drop k := by
  intro heq
  have hi := crcIndex_of_pass f.cfg token hl hLen hCrc
  have hlen := congrArg List.length heq
  rw [List.length_drop] at hlen
  omega

/-- C4 (amended): with `CrcLen` at most 1 000 000, for an input at least as
long as the prefix, the parsed token is valid exactly when the length is
`len(Prefix) + Len + CrcLen`, the leading bytes are the prefix, and the checksum
of the `Len` payload bytes is the final `CrcLen` bytes. -/
theorem validity_characterisation (cfg : TokenConfig) (s : GoString)
    (hLen : 0 < cfg.Len) (hCrc : 0 < cfg.CrcLen) (hCap : cfg.CrcLen ≤ 1000000)
    (hs : cfg.Prefix.length ≤ s.length) :
    ∃ t, (NewTokenFactory cfg).FromString s = some t ∧
      (t.Valid = true ↔
        ((s.length : Int) = (cfg.Prefix.length : Int) + cfg.Len + cfg.CrcLen ∧
          s.take cfg.Prefix.length = cfg.Prefix ∧
          (NewTokenFactory cfg).Checksum ((s.drop cfg.Prefix.length).take cfg.Len.toNat) =
            some (s.drop (s.length - cfg.CrcLen.toNat)))) := by
  have hcfg : (NewTokenFactory cfg).cfg = cfg := rfl
  by_cases hl : (s.length : Int) = (cfg.Prefix.length : Int) + cfg.Len + cfg.CrcLen
  · by_cases hp : s.take cfg.Prefix.length = cfg.Prefix
    · have hc := Checksum_eq (NewTokenFactory cfg)
        ((s.drop cfg.Prefix.length).take cfg.Len.toNat) (le_of_lt hCrc) hCap
      have hmk := makeToken_checked (NewTokenFactory cfg) s (s.drop cfg.Prefix.length) _
        (fun x => .ok x) hs rfl (by simp only [NewTokenFactory, List.length_drop]; omega) hp
        (le_of_lt hLen) (le_of_lt hCrc) hc
      have hd : s.drop (s.length - cfg.CrcLen.toNat) =
          (s.drop cfg.Prefix.length).drop cfg.Len.toNat := by
        have hn : s.length - cfg.CrcLen.toNat = cfg.Prefix.length + cfg.Len.toNat := by omega
        rw [List.drop_drop, hn]
      refine ⟨_, hmk, ?_⟩
      rw [hd, hc]
      simp only [hcfg]
      by_cases hv : List.take cfg.CrcLen.toNat
          (padWidth cfg.CrcLen (formatUint (ChecksumIEEE
            ((s.drop cfg.Prefix.length).take cfg.Len.toNat)))) =
          (s.drop cfg.Prefix.length).drop cfg.Len.toNat
      · rw [if_pos hv]
        exact ⟨fun _ => ⟨hl, hp, congrArg some hv⟩, fun _ => rfl⟩
      · rw [if_neg hv]
        exact ⟨fun h => Bool.noConfusion h, fun h => absurd (Option.some.inj h.2.2) hv⟩
    · refine ⟨_, makeToken_wrong_pfx (NewTokenFactory cfg) s _ _ hs rfl
        (goLen_of_exact cfg _ (by simp only [hcfg, List.length_drop]; omega)) hp, ?_⟩
      simp [hp]
  · have hne : (((s.drop cfg.Prefix.length).length : Nat) : Int) ≠ cfg.Len + cfg.CrcLen := by
      simp only [hcfg, List.length_drop]
      omega
    rcases makeToken_cases (NewTokenFactory cfg) s (fun x => .ok x) hs with
      ⟨e, he, _⟩ | ⟨token, _, _, hm⟩ | ⟨token, _, _, _, hm⟩ | ⟨token, _, hg, _, hbad, _⟩ |
      ⟨token, c, k, htok, hg, _, hk, _, _, _, hc, hm⟩
    · cases he
    · exact ⟨_, hm, by simp [hl]⟩
    · exact ⟨_, hm, by simp [hl]⟩
    · have hi := crcIndex_of_pass (NewTokenFactory cfg).cfg token hg (le_of_lt hLen)
        (le_of_lt hCrc)
      simp only [hcfg] at hi hbad
      omega
    · injection htok with htok
      subst htok
      have hmis := checksum_mismatch_of_inexact (NewTokenFactory cfg) _ c k hg
        (le_of_lt hLen) (le_of_lt hCrc) hk (Checksum_length _ _ _ hc) hne
      rw [if_neg hmis] at hm
      exact ⟨_, hm, by simp [hl]⟩

/-- C4 witness: prefix `bz`, `Len = 2`, `CrcLen = 2` and the input `bzab12`. -/
theorem validity_characterisation_witness :
    (0 < (2 : Int) ∧ 0 < (2 : Int) ∧ (2 : Int) ≤ 1000000 ∧
      (ascii "bz").length ≤ (ascii "bzab12").length) ∧
    ∃ t, (NewTokenFactory { Len := 2, CrcLen := 2, Prefix := ascii "bz" }).FromString
        (ascii "bzab12") = some t ∧
      (t.Valid = true ↔
        ((((ascii "bzab12").length : Nat) : Int) = (((ascii "bz").length : Nat) : Int) + 2 + 2 ∧
          (ascii "bzab12").take (ascii "bz").length = ascii "bz" ∧
          (NewTokenFactory { Len := 2, CrcLen := 2, Prefix := ascii "bz" }).Checksum
              (((ascii "bzab12").drop (ascii "bz").length).take (2 : Int).toNat) =
            some ((ascii "bzab12").drop ((ascii "bzab12").length - (2 : Int).toNat)))) :=
  ⟨⟨by decide, by decide, by decide, by decide⟩,
    validity_characterisation { Len := 2, CrcLen := 2, Prefix := ascii "bz" } (ascii "bzab12")
      (by decide) (by decide) (by decide) (by decide)⟩

theorem digits_div_pow (b : Nat) (hb : 2 ≤ b) :
    ∀ (k n : Nat), Nat.digits b (n / b ^ k) = (Nat.digits b n).drop k := by
  intro k
  induction k with
  | zero => intro n; simp
  | succ k ih =>
    intro n
    by_cases h0 : n = 0
    · subst h0; simp
    · rw [Nat.digits_def' (by omega) (Nat.pos_of_ne_zero h0) (n := n), List.drop_succ_cons,
        ← ih (n / b), Nat.div_div_eq_div_mul, pow_succ, Nat.mul_comm]

theorem formatUint_of_ne_zero (n : Nat) (h : n ≠ 0) :
    formatUint n = ((Nat.digits 10 n).reverse).map (fun d => Fin.ofNat (48 + d)) := by
  unfold formatUint
  rw [if_neg h, digitsLE_eq_digits 10 (by decide) n n (le_refl n)]

theorem formatUint_length_pos (n : Nat) : 0 < (formatUint n).length := by
  by_cases h : n = 0
  · subst h; decide
  · rw [formatUint_of_ne_zero n h, List.length_map, List.length_reverse]
    exact List.length_pos.mpr (Nat.digits_ne_nil_iff_ne_zero.mpr h)

/-- Keeping the first `w` characters of a decimal rendering keeps the most
significant digits: it is the rendering of the number with its low digits
divided away. -/
theorem formatUint_take (n w : Nat) (hw : 0 < w) (hlt : w < (formatUint n).length) :
    (formatUint n).take w = formatUint (n / 10 ^ ((formatUint n).length - w)) := by
  have h0 : n ≠ 0 := by
    intro h; subst h
    have : (formatUint 0).length = 1 := by decide
    omega
  have hlen : (formatUint n).length = (Nat.digits 10 n).length := by
    rw [formatUint_of_ne_zero n h0, List.length_map, List.length_reverse]
  rw [hlen] at hlt ⊢
  have hq : n / 10 ^ ((Nat.digits 10 n).length - w) ≠ 0 := by
    intro hz
    have hd := digits_div_pow 10 (by decide) ((Nat.digits 10 n).length - w) n
    rw [hz, Nat.digits_zero] at hd
    have hl := congrArg List.length hd
    simp at hl
    omega
  rw [formatUint_of_ne_zero _ hq, formatUint_of_ne_zero n h0,
    digits_div_pow 10 (by decide), List.reverse_drop, ← List.map_take]
  congr 2
  omega

/-- C4 as stated fails for a checksum width above 1 000 000: with `Len = 1`,
`CrcLen = 1000001` and no prefix, the input of 1 000 002 zero digits has the
expected length and prefix, and `FromString` panics in `Checksum`, where `fmt`
writes `%!(BADWIDTH)` and the 22 bytes it produces are sliced at 1 000 001: no
token comes back, valid or not. -/
theorem validity_characterisation_fails_on_wide_checksum :
    0 < wideConfig.Len ∧ 0 < wideConfig.CrcLen ∧
    wideConfig.Prefix.length ≤ wideInput.length ∧
    (wideInput.length : Int) =
      (wideConfig.Prefix.length : Int) + wideConfig.Len + wideConfig.CrcLen ∧
    wideInput.take wideConfig.Prefix.length = wideConfig.Prefix ∧
    (NewTokenFactory wideConfig).FromString wideInput = none := by
  have hlen : wideInput.length = 1000002 := List.length_replicate _ _
  have hl : (wideInput.length : Int) =
      (wideConfig.Prefix.length : Int) + wideConfig.Len + wideConfig.CrcLen := by
    rw [hlen]; decide
  refine ⟨by decide, by decide, Nat.zero_le _, hl, rfl, ?_⟩
  exact makeToken_none_of_bad_width (NewTokenFactory wideConfig) wideInput wideInput _
    (Nat.zero_le _) rfl (goLen_of_exact wideConfig wideInput (by rw [hlen]; decide)) rfl
    (Or.inr (by decide))

/-- C10 (amended): for a width between 1 and 1 000 000 the checksum is the
first `w` characters of the zero-padded decimal CRC-32; it has exactly `w`
characters, all decimal digits, the slice is in range, and when the CRC has more
than `w` digits they are its most significant ones. -/
theorem checksum_definition (cfg : TokenConfig) (data : GoString) (hw : 0 < cfg.CrcLen)
    (hCap : cfg.CrcLen ≤ 1000000) :
    ∃ c, (NewTokenFactory cfg).Checksum data = some c ∧
      c = (List.replicate (cfg.CrcLen.toNat - (formatUint (ChecksumIEEE data)).length) 48 ++
            formatUint (ChecksumIEEE data)).take cfg.CrcLen.toNat ∧
      cfg.CrcLen.toNat ≤ (List.replicate
            (cfg.CrcLen.toNat - (formatUint (ChecksumIEEE data)).length) (48 : Byte) ++
          formatUint (ChecksumIEEE data)).length ∧
      (c.length : Int) = cfg.CrcLen ∧
      (∀ x ∈ c, isDigitByte x) ∧
      (cfg.CrcLen.toNat < (formatUint (ChecksumIEEE data)).length →
        c = formatUint (ChecksumIEEE data /
              10 ^ ((formatUint (ChecksumIEEE data)).length - cfg.CrcLen.toNat))) := by
  have hc := Checksum_eq (NewTokenFactory cfg) data (le_of_lt hw) hCap
  have hcfg : (NewTokenFactory cfg).cfg = cfg := rfl
  rw [hcfg] at hc
  have hpad : padWidth cfg.CrcLen (formatUint (ChecksumIEEE data)) =
      List.replicate (cfg.CrcLen.toNat - (formatUint (ChecksumIEEE data)).length) 48 ++
        formatUint (ChecksumIEEE data) := by
    unfold padWidth
    rw [if_neg (by omega)]
  refine ⟨_, hc, ?_, ?_, Checksum_length _ _ _ hc, Checksum_digits _ _ _ hc, ?_⟩
  · rw [hpad]
  · simp; omega
  · intro hlt
    rw [hpad, ← formatUint_take _ _ (by omega) hlt]
    have : cfg.CrcLen.toNat - (formatUint (ChecksumIEEE data)).length = 0 := by omega
    rw [this]
    simp

/-- C10 witness: the default width 6 and the data `123456789`. -/
theorem checksum_definition_witness :
    (0 < (6 : Int) ∧ (6 : Int) ≤ 1000000) ∧
    ∃ c, (NewTokenFactory ConfigDefault).Checksum (ascii "123456789") = some c ∧
      c = (List.replicate (ConfigDefault.CrcLen.toNat -
              (formatUint (ChecksumIEEE (ascii "123456789"))).length) 48 ++
            formatUint (ChecksumIEEE (ascii "123456789"))).take ConfigDefault.CrcLen.toNat ∧
      ConfigDefault.CrcLen.toNat ≤ (List.replicate
            (ConfigDefault.CrcLen.toNat -
              (formatUint (ChecksumIEEE (ascii "123456789"))).length) (48 : Byte) ++
          formatUint (ChecksumIEEE (ascii "123456789"))).length ∧
      (c.length : Int) = ConfigDefault.CrcLen ∧
      (∀ x ∈ c, isDigitByte x) ∧
      (ConfigDefault.CrcLen.toNat < (formatUint (ChecksumIEEE (ascii "123456789"))).length →
        c = formatUint (ChecksumIEEE (ascii "123456789") /
              10 ^ ((formatUint (ChecksumIEEE (ascii "123456789"))).length -
                ConfigDefault.CrcLen.toNat))) :=
  ⟨⟨by decide, by decide⟩,
    checksum_definition ConfigDefault (ascii "123456789") (by decide) (by decide)⟩

/-- C10 as stated fails for a width above 1 000 000: with `CrcLen = 1000001`
the call `fmt.Sprintf("%0*d", ...)` writes `%!(BADWIDTH)` and the unpadded
number, here the 22 bytes `%!(BADWIDTH)3904355907`, and the slice
`pad[:1000001]` is out of range: `Checksum` panics. -/
theorem checksum_definition_fails_on_wide_checksum :
    (0 : Int) < 1000001 ∧
    sprintfPadUint 1000001 (ChecksumIEEE (ascii "a")) = ascii "%!(BADWIDTH)3904355907" ∧
    (NewTokenFactory { Len := 30, CrcLen := 1000001, Prefix := [] }).Checksum (ascii "a") =
      none := by
  decide

/-- C9 (amended): when the random source succeeds and `CrcLen` is at most
1 000 000, the generated token is valid, has no error, carries the configured
prefix, and its string is the prefix, then `Len` alphanumeric payload bytes,
then the `CrcLen` decimal digits of the payload checksum. With `Len = 30`,
`CrcLen = 6`, prefix `bzt_` this is the shape `^bzt_[A-Za-z0-9]{30}[0-9]{6}$`;
with the default configuration the length is 36. -/
theorem generated_token_shape (cfg : TokenConfig) (rd : RandRead)
    (hLen : 0 < cfg.Len) (hCrc : 0 < cfg.CrcLen) (hCap : cfg.CrcLen ≤ 1000000)
    (hok : rd.err = none) :
    ∃ t payload checksum, (NewTokenFactory cfg).NewToken rd = some t ∧
      t.Valid = true ∧ t.Err = none ∧ t.Prefix = cfg.Prefix ∧
      t.Len = (cfg.Prefix.length : Int) + cfg.Len + cfg.CrcLen ∧
      t.String = cfg.Prefix ++ payload ++ checksum ∧
      (payload.length : Int) = cfg.Len ∧ (∀ x ∈ payload, isAlnumByte x) ∧
      (checksum.length : Int) = cfg.CrcLen ∧ (∀ x ∈ checksum, isDigitByte x) ∧
      (NewTokenFactory cfg).Checksum payload = some checksum := by
  obtain ⟨payload, crc, hnew, hpay, hsum⟩ :=
    NewToken_ok (NewTokenFactory cfg) rd (le_of_lt hLen) (le_of_lt hCrc) hCap hok
  have hpl : (payload.length : Int) = cfg.Len := by
    rw [hpay]; exact genToken_payload_length cfg.Len (le_of_lt hLen) rd
  have hcl : (crc.length : Int) = cfg.CrcLen := Checksum_length _ _ _ hsum
  refine ⟨_, payload, crc, hnew, rfl, rfl, rfl, ?_, ?_, hpl, ?_, hcl,
    Checksum_digits _ _ _ hsum, hsum⟩
  · simp only [Token.Len, Token.String, NewTokenFactory, List.length_append]
    push_cast
    omega
  · simp [Token.String, NewTokenFactory]
  · intro x hx
    rw [hpay] at hx
    obtain ⟨v, _, rfl⟩ := List.mem_map.mp hx
    exact letterOf_alnum v

/-- C9 witness: `Len = 30`, `CrcLen = 6`, prefix `bzt_` and a read that delivers
`[7, 200, 61]` without error. -/
theorem generated_token_shape_witness :
    (0 < (30 : Int) ∧ 0 < (6 : Int) ∧ (6 : Int) ≤ 1000000 ∧
      (⟨[7, 200, 61], none⟩ : RandRead).err = none) ∧
    ∃ t payload checksum,
      (NewTokenFactory { Len := 30, CrcLen := 6, Prefix := ascii "bzt_" }).NewToken
        ⟨[7, 200, 61], none⟩ = some t ∧
      t.Valid = true ∧ t.Err = none ∧ t.Prefix = ascii "bzt_" ∧
      t.Len = (((ascii "bzt_").length : Nat) : Int) + 30 + 6 ∧
      t.String = ascii "bzt_" ++ payload ++ checksum ∧
      (payload.length : Int) = 30 ∧ (∀ x ∈ payload, isAlnumByte x) ∧
      (checksum.length : Int) = 6 ∧ (∀ x ∈ checksum, isDigitByte x) ∧
      (NewTokenFactory { Len := 30, CrcLen := 6, Prefix := ascii "bzt_" }).Checksum payload =
        some checksum :=
  ⟨⟨by decide, by decide, by decide, rfl⟩,
    generated_token_shape { Len := 30, CrcLen := 6, Prefix := ascii "bzt_" }
      ⟨[7, 200, 61], none⟩ (by decide) (by decide) (by decide) rfl⟩

/-- C9 as stated fails for a checksum width above 1 000 000: with `Len = 2`,
`CrcLen = 1000001`, prefix `bzt_` and a read that succeeds, `NewToken` panics
in `Checksum` and returns no token. -/
theorem generated_token_shape_fails_on_wide_checksum :
    (0 : Int) < 2 ∧ (0 : Int) < 1000001 ∧ (⟨[7, 200], none⟩ : RandRead).err = none ∧
    (NewTokenFactory { Len := 2, CrcLen := 1000001, Prefix := ascii "bzt_" }).NewToken
      ⟨[7, 200], none⟩ = none := by
  decide

/-- C5: replacing one byte inside the trailing `CrcLen` bytes of a generated
token string by a different byte makes `FromString` return an invalid token
whose error is "invalid crc". -/
theorem tamper_detection (cfg : TokenConfig) (rd : RandRead) (t : Token) (i : Nat) (c : Byte)
    (hLen : 0 < cfg.Len) (hCrc : 0 < cfg.CrcLen)
    (ht : (NewTokenFactory cfg).NewToken rd = some t)
    (hi : t.String.length - cfg.CrcLen.toNat ≤ i) (hi2 : i < t.String.length)
    (hc : t.String[i]? ≠ some c) :
    ∃ t2, (NewTokenFactory cfg).FromString (t.String.set i c) = some t2 ∧
      t2.Valid = false ∧ t2.Err = some (GoError.new "invalid crc") ∧
      (GoError.new "invalid crc").Contains "invalid crc" := by
  obtain ⟨_, hcase⟩ := NewToken_some (NewTokenFactory cfg) rd t ht
  rcases hcase with ⟨e, _, rfl⟩ | ⟨_, _, _, payload, crc, rfl, hpay, hsum⟩
  · simp [Token.String] at hi2
  · have hpl : (payload.length : Int) = cfg.Len := by
      rw [hpay]; exact genToken_payload_length cfg.Len (le_of_lt hLen) rd
    have hcl : (crc.length : Int) = cfg.CrcLen := Checksum_length _ _ _ hsum
    have hpl2 : payload.length = cfg.Len.toNat := by omega
    have hcfgP : (NewTokenFactory cfg).cfg.Prefix = cfg.Prefix := rfl
    simp only [Token.String, hcfgP, List.length_append] at hi hi2 hc ⊢
    have hj1 : cfg.Prefix.length ≤ i := by omega
    have hj2 : payload.length ≤ i - cfg.Prefix.length := by omega
    have hset : (cfg.Prefix ++ (payload ++ crc)).set i c =
        cfg.Prefix ++ (payload ++ crc.set (i - cfg.Prefix.length - payload.length) c) := by
      rw [List.set_append_right _ _ hj1, List.set_append_right _ _ hj2]
    have hget : crc[i - cfg.Prefix.length - payload.length]? ≠ some c := by
      rw [List.getElem?_append_right hj1, List.getElem?_append_right hj2] at hc
      exact hc
    have hne : crc ≠ crc.set (i - cfg.Prefix.length - payload.length) c := by
      intro heq
      apply hget
      rw [heq]
      exact List.getElem?_set_self (by omega)
    have htake : (payload ++ crc.set (i - cfg.Prefix.length - payload.length) c).take
        cfg.Len.toNat = payload := by
      rw [← hpl2]; simp
    have hdrop : (payload ++ crc.set (i - cfg.Prefix.length - payload.length) c).drop
        cfg.Len.toNat = crc.set (i - cfg.Prefix.length - payload.length) c := by
      rw [← hpl2]; simp
    have hfs := FromString_prefixed (NewTokenFactory cfg)
      (payload ++ crc.set (i - cfg.Prefix.length - payload.length) c) crc
      (by simp [NewTokenFactory]; omega) (le_of_lt hLen) (le_of_lt hCrc)
      (by rw [show (NewTokenFactory cfg).cfg.Len = cfg.Len from rfl, htake]; exact hsum)
    rw [show (NewTokenFactory cfg).cfg.Len = cfg.Len from rfl, hdrop, if_neg hne, hcfgP] at hfs
    rw [hset]
    exact ⟨_, hfs, rfl, rfl, contains_invalid_crc⟩

/-- C5 witness: the token `bzt_12E82` with its last checksum digit replaced by `0`. -/
theorem tamper_detection_witness :
    (0 < (3 : Int) ∧ 0 < (2 : Int) ∧
      (NewTokenFactory { Len := 3, CrcLen := 2, Prefix := ascii "bzt_" }).NewToken
          ⟨[1, 2, 200], none⟩ = some tamperSample ∧
      tamperSample.String.length - (2 : Int).toNat ≤ 8 ∧
      8 < tamperSample.String.length ∧
      tamperSample.String[8]? ≠ some 48) ∧
    ∃ t2, (NewTokenFactory { Len := 3, CrcLen := 2, Prefix := ascii "bzt_" }).FromString
        (tamperSample.String.set 8 48) = some t2 ∧
      t2.Valid = false ∧ t2.Err = some (GoError.new "invalid crc") ∧
      (GoError.new "invalid crc").Contains "invalid crc" :=
  ⟨⟨by decide, by decide, by decide, by decide, by decide, by decide⟩,
    tamper_detection { Len := 3, CrcLen := 2, Prefix := ascii "bzt_" } ⟨[1, 2, 200], none⟩
      tamperSample 8 48 (by decide) (by decide) (by decide) (by decide)
      (by decide) (by decide)⟩

theorem digitVal_lt_iff (ch : Byte) : digitVal 62 ch < 62 ↔ isAlnumByte ch := by
  unfold digitVal isAlnumByte maxBaseSmall MaxBase
  constructor
  · intro h
    split at h
    · left; assumption
    · split at h
      · right; right; assumption
      · split at h
        · right; left; assumption
        · omega
  · intro h
    split
    · omega
    · split
      · omega
      · split
        · simp; omega
        · omega

theorem scanDigits_rest_of_bad (body : GoString) :
    ∀ (acc count : Nat), (∃ x ∈ body, ¬ isAlnumByte x) →
      (scanDigits 62 body acc count).2.2 ≠ [] := by
  induction body with
  | nil => intro acc count h; obtain ⟨x, hx, _⟩ := h; cases hx
  | cons ch rest ih =>
    intro acc count h
    unfold scanDigits
    by_cases hd : digitVal 62 ch ≥ 62
    · rw [if_pos hd]; simp
    · rw [if_neg hd]
      apply ih
      obtain ⟨x, hx, hbad⟩ := h
      rcases List.mem_cons.mp hx with rfl | hx
      · exact absurd ((digitVal_lt_iff x).mp (by omega)) hbad
      · exact ⟨x, hx, hbad⟩

theorem bigSetString_of_bad (s : GoString) (h : ∃ x ∈ afterSign s, ¬ isAlnumByte x) :
    bigSetString s 62 = none := by
  cases s with
  | nil => rfl
  | cons ch rest =>
    have hr := scanDigits_rest_of_bad (afterSign (ch :: rest)) 0 0 h
    simp only [afterSign] at hr
    simp only [bigSetString]
    by_cases hc : (scanDigits 62 (if ch = 45 ∨ ch = 43 then rest else ch :: rest) 0 0).2.1 = 0
    · rw [if_pos hc]
    · rw [if_neg hc, if_pos hr]

theorem contains_cannot_parse (s : GoString) :
    (GoError.errorfQ "cannot parse base62: " s).Contains "cannot parse base62" := by
  intro quote
  refine ⟨[], ": ".data ++ (quote s).data, ?_⟩
  simp [GoError.Error]

/-- C8 (amended): an input that still has a byte outside `[0-9A-Za-z]` after
one leading sign is set aside fails to decode with "cannot parse base62", and
`FromBase62` of the prefix followed by it is invalid with that error. -/
theorem base62_decode_rejection (cfg : TokenConfig) (s : GoString)
    (h : ∃ x ∈ afterSign s, ¬ isAlnumByte x) :
    parseBase62 s = .error (GoError.errorfQ "cannot parse base62: " s) ∧
      (GoError.errorfQ "cannot parse base62: " s).Contains "cannot parse base62" ∧
      ∃ t, (NewTokenFactory cfg).FromBase62 (cfg.Prefix ++ s) = some t ∧
        t.Valid = false ∧ t.Err = some (GoError.errorfQ "cannot parse base62: " s) := by
  have hp : parseBase62 s = .error (GoError.errorfQ "cannot parse base62: " s) := by
    unfold parseBase62
    rw [bigSetString_of_bad s h]
  refine ⟨hp, contains_cannot_parse s, _, makeToken_parse_error (NewTokenFactory cfg)
    (cfg.Prefix ++ s) parseBase62 (GoError.errorfQ "cannot parse base62: " s) ?_ ?_, rfl, rfl⟩
  · simp [NewTokenFactory]
  · simp [NewTokenFactory, hp]

/-- C8 witness: the input `+rando$`, whose `$` is outside the alphabet. -/
theorem base62_decode_rejection_witness :
    (∃ x ∈ afterSign (ascii "+rando$"), ¬ isAlnumByte x) ∧
    (parseBase62 (ascii "+rando$") =
        .error (GoError.errorfQ "cannot parse base62: " (ascii "+rando$")) ∧
      (GoError.errorfQ "cannot parse base62: " (ascii "+rando$")).Contains
        "cannot parse base62" ∧
      ∃ t, (NewTokenFactory ConfigDefault).FromBase62 (ConfigDefault.Prefix ++ ascii "+rando$")
          = some t ∧
        t.Valid = false ∧
        t.Err = some (GoError.errorfQ "cannot parse base62: " (ascii "+rando$"))) :=
  ⟨⟨36, by decide, by decide⟩,
    base62_decode_rejection ConfigDefault (ascii "+rando$") ⟨36, by decide, by decide⟩⟩

/-- C8 as stated fails on a leading sign: `+1` contains `+`, which is outside
the alphabet, and decodes to the single byte 1; so does `-1`. -/
theorem parseBase62_accepts_leading_sign :
    (43 : Byte) ∈ ascii "+1" ∧ ¬ isAlnumByte 43 ∧ parseBase62 (ascii "+1") = .ok [1] ∧
    (45 : Byte) ∈ ascii "-1" ∧ ¬ isAlnumByte 45 ∧ parseBase62 (ascii "-1") = .ok [1] := by
  decide

theorem digitVal_bigDigits : ∀ d : Fin 62, digitVal 62 (bigDigits.getD d.val 0) = d.val := by
  decide

theorem bigDigits_alnum : ∀ d : Fin 62, isAlnumByte (bigDigits.getD d.val 0) := by
  decide

theorem scanDigits_map (L : List Nat) (hL : ∀ d ∈ L, d < 62) :
    ∀ (acc count : Nat),
      scanDigits 62 (L.map (fun d => bigDigits.getD d 0)) acc count =
        (L.foldl (fun a d => a * 62 + d) acc, count + L.length, []) := by
  induction L with
  | nil => intro acc count; simp [scanDigits]
  | cons d rest ih =>
    intro acc count
    have hd : d < 62 := hL d (List.mem_cons_self _ _)
    have hv : digitVal 62 (bigDigits.getD d 0) = d := digitVal_bigDigits ⟨d, hd⟩
    simp only [List.map_cons, scanDigits, hv]
    rw [if_neg (by omega), ih (fun x hx => hL x (List.mem_cons_of_mem _ hx))]
    simp only [List.foldl_cons, List.length_cons]
    congr 2
    omega

theorem foldl_reverse_ofDigits (b : Nat) (L : List Nat) :
    L.reverse.foldl (fun a d => a * b + d) 0 = Nat.ofDigits b L := by
  induction L with
  | nil => simp
  | cons d rest ih =>
    rw [List.reverse_cons, List.foldl_append, ih, Nat.ofDigits_cons]
    simp only [List.foldl_cons, List.foldl_nil]
    ring

/-- Reading back the base-62 text of a natural number gives the number. -/
theorem bigSetString_natText (n : Nat) : bigSetString (natText n 62) 62 = some (n : Int) := by
  by_cases h0 : n = 0
  · subst h0; decide
  · have hne : Nat.digits 62 n ≠ [] := Nat.digits_ne_nil_iff_ne_zero.mpr h0
    have hlt : ∀ d ∈ (Nat.digits 62 n).reverse, d < 62 := fun d hd =>
      Nat.digits_lt_base (by decide) (List.mem_reverse.mp hd)
    have htext : natText n 62 =
        (Nat.digits 62 n).reverse.map (fun d => bigDigits.getD d 0) := by
      unfold natText
      rw [if_neg h0, digitsLE_eq_digits 62 (by decide) n n (le_refl n)]
    have hrne : (Nat.digits 62 n).reverse ≠ [] := by simpa using hne
    obtain ⟨d, rest, hcons⟩ := List.exists_cons_of_ne_nil hrne
    have hdlt : d < 62 := hlt d (by rw [hcons]; exact List.mem_cons_self _ _)
    have hal := bigDigits_alnum ⟨d, hdlt⟩
    have hnosign : ¬ (bigDigits.getD d 0 = 45 ∨ bigDigits.getD d 0 = 43) := by
      intro hs
      rcases hs with hs | hs <;> (simp only [] at hal; rw [hs] at hal; revert hal; decide)
    have hscan := scanDigits_map ((Nat.digits 62 n).reverse) hlt 0 0
    rw [foldl_reverse_ofDigits, Nat.ofDigits_digits] at hscan
    rw [htext]
    rw [hcons] at hscan ⊢
    simp only [List.map_cons, bigSetString, if_neg hnosign]
    simp only [List.map_cons] at hscan
    rw [hscan]
    simp
    intro hx
    exfalso
    apply hnosign
    left
    simpa using hx

theorem foldl_bytes_ofDigits (L : GoString) :
    L.foldl (fun acc v => acc * 256 + v.val) 0 =
      Nat.ofDigits 256 ((L.map (fun v => v.val)).reverse) := by
  rw [← foldl_reverse_ofDigits 256, List.reverse_reverse, List.foldl_map]

/-- Bytes that do not start with a zero byte survive `SetBytes` then `Bytes`. -/
theorem bigBytes_bigSetBytes (L : GoString) (h : ∀ v ∈ L.head?, v ≠ (0 : Byte)) :
    bigBytes (bigSetBytes L) = L := by
  unfold bigBytes bigSetBytes
  simp only [Int.natAbs_ofNat]
  rw [digitsLE_eq_digits 256 (by decide) _ _ (le_refl _), foldl_bytes_ofDigits,
    Nat.digits_ofDigits 256 (by decide)]
  · rw [List.reverse_reverse, List.map_map]
    have : ((fun d => (Fin.ofNat d : Byte)) ∘ fun (v : Byte) => v.val) = id := by
      funext v
      apply Fin.ext
      simp only [Function.comp, id, val_ofNat_byte]
      exact Nat.mod_eq_of_lt v.isLt
    rw [this, List.map_id]
  · intro l hl
    simp only [List.mem_reverse, List.mem_map] at hl
    obtain ⟨v, _, rfl⟩ := hl
    exact v.isLt
  · intro hne
    rw [List.getLast_reverse]
    cases L with
    | nil => simp at hne
    | cons v rest =>
      simp only [List.map_cons, List.head_cons]
      have hv := h v (by simp)
      intro hz
      exact hv (Fin.ext hz)

/-- Decoding the base-62 encoding of `L` gives `Bytes` of `SetBytes` of `L`. -/
theorem parseBase62_toBase62 (L : GoString) :
    parseBase62 (toBase62 L) = .ok (bigBytes (bigSetBytes L)) := by
  unfold parseBase62 toBase62 bigText
  have hnn : ¬ bigSetBytes L < 0 := by unfold bigSetBytes; omega
  rw [if_neg hnn]
  have hv : ((bigSetBytes L).natAbs : Int) = bigSetBytes L := by
    unfold bigSetBytes; simp
  rw [bigSetString_natText, hv]

theorem isAlnumByte_ne_zero (v : Byte) (h : isAlnumByte v) : v ≠ 0 := by
  intro hz
  subst hz
  revert h
  decide

/-- C2 (amended): when the random source succeeds and `CrcLen` is at most
1 000 000, decoding the base-62 form of a generated token gives back a valid
token with the same string and no error. -/
theorem base62_round_trip (cfg : TokenConfig) (rd : RandRead)
    (hLen : 0 < cfg.Len) (hCrc : 0 < cfg.CrcLen) (hCap : cfg.CrcLen ≤ 1000000)
    (hok : rd.err = none) :
    ∃ t t2, (NewTokenFactory cfg).NewToken rd = some t ∧
      (NewTokenFactory cfg).FromBase62 t.Base62 = some t2 ∧
      t2.String = t.String ∧ t2.Valid = true ∧ t2.Err = none := by
  obtain ⟨payload, crc, hnew, hpay, hsum⟩ :=
    NewToken_ok (NewTokenFactory cfg) rd (le_of_lt hLen) (le_of_lt hCrc) hCap hok
  have hpl : (payload.length : Int) = cfg.Len := by
    rw [hpay]; exact genToken_payload_length cfg.Len (le_of_lt hLen) rd
  have hcl : (crc.length : Int) = cfg.CrcLen := Checksum_length _ _ _ hsum
  have hpl2 : payload.length = cfg.Len.toNat := by omega
  have htake : (payload ++ crc).take cfg.Len.toNat = payload := by
    rw [← hpl2]; simp
  have hdrop : (payload ++ crc).drop cfg.Len.toNat = crc := by
    rw [← hpl2]; simp
  have hhead : ∀ v ∈ (payload ++ crc).head?, v ≠ (0 : Byte) := by
    intro v hv
    cases hp : payload with
    | nil => rw [hp] at hpl2; simp at hpl2; omega
    | cons p rest =>
      rw [hp] at hv
      simp at hv
      subst hv
      apply isAlnumByte_ne_zero
      have hmem : p ∈ payload := by rw [hp]; exact List.mem_cons_self _ _
      rw [hpay] at hmem
      obtain ⟨w, _, rfl⟩ := List.mem_map.mp hmem
      exact letterOf_alnum w
  have hparse : parseBase62 (toBase62 (payload ++ crc)) = .ok (payload ++ crc) := by
    rw [parseBase62_toBase62, bigBytes_bigSetBytes _ hhead]
  have hcfgP : (NewTokenFactory cfg).cfg.Prefix = cfg.Prefix := rfl
  have hcfgL : (NewTokenFactory cfg).cfg.Len = cfg.Len := rfl
  have hmk := makeToken_checked (NewTokenFactory cfg)
    (cfg.Prefix ++ toBase62 (payload ++ crc)) (payload ++ crc) crc parseBase62
    (by simp [hcfgP]) (by simp [hcfgP, hparse]) (by simp [NewTokenFactory]; omega)
    (by simp [hcfgP]) (le_of_lt hLen) (le_of_lt hCrc) (by rw [hcfgL, htake]; exact hsum)
  rw [hcfgL, hdrop, if_pos rfl] at hmk
  exact ⟨_, _, hnew, hmk, rfl, rfl, rfl⟩

/-- C2 witness: the amended round trip at the default configuration and a read
that delivers `[9, 100, 255]` without error. -/
theorem base62_round_trip_witness :
    (0 < ConfigDefault.Len ∧ 0 < ConfigDefault.CrcLen ∧ ConfigDefault.CrcLen ≤ 1000000 ∧
      (⟨[9, 100, 255], none⟩ : RandRead).err = none) ∧
    ∃ t t2, (NewTokenFactory ConfigDefault).NewToken ⟨[9, 100, 255], none⟩ = some t ∧
      (NewTokenFactory ConfigDefault).FromBase62 t.Base62 = some t2 ∧
      t2.String = t.String ∧ t2.Valid = true ∧ t2.Err = none :=
  ⟨⟨by decide, by decide, by decide, rfl⟩,
    base62_round_trip ConfigDefault ⟨[9, 100, 255], none⟩ (by decide) (by decide) (by decide)
      rfl⟩

/-- C2 as stated fails in two ways. When the read of the random source returns
an error, `NewToken` gives the empty invalid token, its base-62 form is `0`, and
`FromBase62` rejects that for its length. With `CrcLen = 1000001` and a read
that succeeds, `NewToken` panics in `Checksum`: no token is generated. -/
theorem base62_round_trip_fails :
    (0 < ConfigDefault.Len ∧ 0 < ConfigDefault.CrcLen ∧
      (NewTokenFactory ConfigDefault).NewToken
          { data := [], err := some (GoError.new "entropy unavailable") } = some failedToken ∧
      failedToken.Base62 = ascii "0" ∧
      (NewTokenFactory ConfigDefault).FromBase62 failedToken.Base62 =
        some { token := ascii "0", pfx := [], b := [], crc := [], Valid := false,
               err := some (GoError.new "invalid length") }) ∧
    ((0 : Int) < 3 ∧ (0 : Int) < 1000001 ∧ (⟨[9, 100, 255], none⟩ : RandRead).err = none ∧
      (NewTokenFactory { Len := 3, CrcLen := 1000001, Prefix := ascii "bzt_" }).NewToken
        ⟨[9, 100, 255], none⟩ = none) := by
  decide

/-! ## The base-62 codec, the random payload and the error invariant -/

theorem bigDigits_lowerFirst : ∀ d : Fin 62, bigDigits.getD d.val 0 = lowerFirstDigit d.val := by
  decide

theorem natText_eq_numeral62 (n : Nat) : natText n 62 = numeral62 lowerFirstDigit n := by
  unfold natText numeral62
  by_cases h0 : n = 0
  · rw [if_pos h0, if_pos h0]
  · rw [if_neg h0, if_neg h0, digitsLE_eq_digits 62 (by decide) n n (le_refl n)]
    apply List.map_congr_left
    intro d hd
    have hlt : d < 62 := Nat.digits_lt_base (by decide) (List.mem_reverse.mp hd)
    exact bigDigits_lowerFirst ⟨d, hlt⟩

theorem bigSetBytes_eq_value (b : GoString) : bigSetBytes b = ((bigEndianValue b : Nat) : Int) := by
  unfold bigSetBytes bigEndianValue
  rw [foldl_bytes_ofDigits]

/-- C11 (amended): `toBase62(b)` is the base-62 numeral of the big-endian value
of `b`, written with `0`-`9` for the digit values 0 to 9, lowercase `a`-`z`
for 10 to 35 and uppercase `A`-`Z` for 36 to 61. -/
theorem toBase62_numeral (b : GoString) :
    toBase62 b = numeral62 lowerFirstDigit (bigEndianValue b) := by
  unfold toBase62 bigText
  rw [bigSetBytes_eq_value, if_neg (by omega), Int.natAbs_ofNat, natText_eq_numeral62]

/-- C11 as stated fails on the digit value 10: the one-byte input `0x0a` has
the value 10 and is encoded as lowercase `a`, where the claim's table has `A`. -/
theorem toBase62_digit_ten_is_lowercase :
    bigEndianValue [10] = 10 ∧ toBase62 [10] = ascii "a" ∧
    upperFirstDigit 10 = 65 ∧ ascii "A" = [65] ∧
    toBase62 [10] ≠ [upperFirstDigit 10] ∧
    toBase62 [36] = ascii "A" ∧ upperFirstDigit 36 = 97 := by
  refine ⟨by simp [bigEndianValue]; rfl, by decide, by decide, by decide, by decide, by decide,
    by decide⟩

set_option maxRecDepth 100000 in
/-- C12: the test vector of `TestB62` encodes to `NJaT6B7Ip2oLiysprlOr8RVjFRr1`,
and that text decodes without error to the 21 bytes of the input. -/
theorem base62_test_vector :
    toBase62 (ascii "This is 1 test string") = ascii "NJaT6B7Ip2oLiysprlOr8RVjFRr1" ∧
    parseBase62 (ascii "NJaT6B7Ip2oLiysprlOr8RVjFRr1") = .ok (ascii "This is 1 test string") ∧
    (ascii "This is 1 test string").length = 21 := by
  decide

theorem bigSetBytes_zero_cons (rest : GoString) : bigSetBytes (0 :: rest) = bigSetBytes rest := by
  simp [bigSetBytes]

/-- `Bytes` of `SetBytes` removes the leading run of zero bytes. -/
theorem bigBytes_bigSetBytes_dropWhile (b : GoString) :
    bigBytes (bigSetBytes b) = b.dropWhile (fun v => decide (v = 0)) := by
  induction b with
  | nil => rfl
  | cons v rest ih =>
    by_cases hv : v = 0
    · subst hv
      rw [bigSetBytes_zero_cons, ih]
      simp
    · rw [List.dropWhile_cons_of_neg (by simpa using hv)]
      apply bigBytes_bigSetBytes
      intro w hw
      simp at hw
      subst hw
      exact hv

/-- C13: decoding the encoding of `b` succeeds and returns `b` without its
leading run of zero bytes; that is `b` itself when `b` is empty or starts with
a non-zero byte, and a strictly shorter sequence when `b` starts with a zero
byte. -/
theorem base62_codec_round_trip (b : GoString) :
    parseBase62 (toBase62 b) = .ok (b.dropWhile (fun v => decide (v = 0))) ∧
    ((b = [] ∨ ∃ v rest, b = v :: rest ∧ v ≠ 0) → parseBase62 (toBase62 b) = .ok b) ∧
    ((∃ rest, b = 0 :: rest) →
      (b.dropWhile (fun v => decide (v = 0))).length < b.length) := by
  refine ⟨?_, ?_, ?_⟩
  · rw [parseBase62_toBase62, bigBytes_bigSetBytes_dropWhile]
  · intro h
    rw [parseBase62_toBase62, bigBytes_bigSetBytes]
    intro w hw
    rcases h with h | ⟨v, rest, h, hv⟩
    · subst h; simp at hw
    · subst h; simp at hw; subst hw; exact hv
  · rintro ⟨rest, rfl⟩
    rw [List.dropWhile_cons_of_pos (by simp)]
    have := (List.dropWhile_suffix (fun v : Byte => decide (v = 0)) (l := rest)).length_le
    simp only [List.length_cons]
    omega

theorem letters_length : letters.length = 62 := by decide

theorem randRead_full (rd : RandRead) (n : Nat) (h : rd.data.length = n) :
    (randRead rd (List.replicate n 0)).1 = rd.data := by
  simp [randRead, h]

/-- C16: for `n ≥ 0` and a read that delivers `n` raw bytes, `genToken` returns
exactly `n` bytes, the byte at each index being `letters[r[k] % 62]`; every
output byte is in `[0-9A-Za-z]`. -/
theorem genToken_mapping (n : Int) (rd : RandRead) (hn : 0 ≤ n)
    (hr : (rd.data.length : Int) = n) :
    letters = ascii "0123456789ABCDEFGHIJKLMNOPQRSTUVWXYZabcdefghijklmnopqrstuvwxyz" ∧
    ∃ out, genToken n rd = some (out, rd.err) ∧ (out.length : Int) = n ∧
      (∀ (k : Nat) (v : Byte), rd.data[k]? = some v → out[k]? = letters[v.val % 62]?) ∧
      (∀ (k : Nat) (v : Byte), rd.data[k]? = some v → v.val % 62 < letters.length) ∧
      out = rd.data.map (fun v => letters.getD (v.val % 62) 0) ∧
      (∀ x ∈ out, isAlnumByte x) := by
  have hfull := randRead_full rd n.toNat (by omega)
  refine ⟨rfl, rd.data.map letterOf, ?_, ?_, ?_, ?_, rfl, ?_⟩
  · rw [genToken_eq n hn rd, hfull]
  · rw [List.length_map]; exact hr
  · intro k v hk
    have hlt : v.val % 62 < letters.length := by
      rw [letters_length]; exact Nat.mod_lt _ (by decide)
    rw [List.getElem?_map, hk]
    simp only [Option.map_some', letterOf, lettersSize, List.getD_eq_getElem?_getD]
    rw [List.getElem?_eq_getElem hlt]
    rfl
  · intro k v _
    rw [letters_length]; exact Nat.mod_lt _ (by decide)
  · intro x hx
    obtain ⟨v, _, rfl⟩ := List.mem_map.mp hx
    exact letterOf_alnum v

/-- C16 witness: `n = 3` and the raw bytes `[1, 2, 200]`. -/
theorem genToken_mapping_witness :
    (0 ≤ (3 : Int) ∧ (((⟨[1, 2, 200], none⟩ : RandRead).data.length : Nat) : Int) = 3) ∧
    (letters = ascii "0123456789ABCDEFGHIJKLMNOPQRSTUVWXYZabcdefghijklmnopqrstuvwxyz" ∧
    ∃ out, genToken 3 ⟨[1, 2, 200], none⟩ = some (out, (⟨[1, 2, 200], none⟩ : RandRead).err) ∧
      (out.length : Int) = 3 ∧
      (∀ (k : Nat) (v : Byte), (⟨[1, 2, 200], none⟩ : RandRead).data[k]? = some v →
        out[k]? = letters[v.val % 62]?) ∧
      (∀ (k : Nat) (v : Byte), (⟨[1, 2, 200], none⟩ : RandRead).data[k]? = some v →
        v.val % 62 < letters.length) ∧
      out = (⟨[1, 2, 200], none⟩ : RandRead).data.map (fun v => letters.getD (v.val % 62) 0) ∧
      (∀ x ∈ out, isAlnumByte x)) :=
  ⟨⟨by decide, by decide⟩, genToken_mapping 3 ⟨[1, 2, 200], none⟩ (by decide) (by decide)⟩

/-- A token returned by `NewToken` has no error exactly when it is valid. -/
theorem NewToken_err_iff_valid (f : TokenFactory) (rd : RandRead) (t : Token)
    (ht : f.NewToken rd = some t) : t.Err = none ↔ t.Valid = true := by
  obtain ⟨_, hcase⟩ := NewToken_some f rd t ht
  rcases hcase with ⟨e, _, rfl⟩ | ⟨_, _, _, payload, crc, rfl, _, _⟩
  · simp [Token.Err]
  · simp [Token.Err]

/-- When `genToken` comes back with an error, `NewToken` returns the invalid
token that carries it, with empty payload and checksum. -/
theorem NewToken_of_genToken_error (f : TokenFactory) (rd : RandRead) (buf : GoString)
    (e : GoError) (hg : genToken f.cfg.Len rd = some (buf, some e)) :
    f.NewToken rd =
      some { token := [], pfx := [], b := [], crc := [], Valid := false, err := some e } := by
  unfold TokenFactory.NewToken
  rw [hg]
  rfl

theorem NewToken_returns (f : TokenFactory) (rd : RandRead) (hLen : 0 ≤ f.cfg.Len)
    (hCrc : 0 ≤ f.cfg.CrcLen) (hcap : f.cfg.CrcLen ≤ 1000000) :
    ∃ t, f.NewToken rd = some t := by
  cases he : rd.err with
  | some e => exact ⟨_, NewToken_fail f rd hLen e he⟩
  | none =>
    obtain ⟨payload, crc, hnew, _, _⟩ := NewToken_ok f rd hLen hCrc hcap he
    exact ⟨_, hnew⟩

/-- C14: every token returned by `NewToken`, `FromString` or `FromBase62` has a
nil error exactly when it is valid; when `genToken` reports the error of the
random source, `NewToken` returns the invalid token with that error and empty
payload and checksum. With `Len` non-negative and `CrcLen` between 0 and
1 000 000 all three calls return a token. -/
theorem error_valid_invariant (cfg : TokenConfig) (rd : RandRead) (s : GoString)
    (hs : cfg.Prefix.length ≤ s.length) :
    (∀ t, (NewTokenFactory cfg).NewToken rd = some t → (t.Err = none ↔ t.Valid = true)) ∧
    (∀ t, (NewTokenFactory cfg).FromString s = some t → (t.Err = none ↔ t.Valid = true)) ∧
    (∀ t, (NewTokenFactory cfg).FromBase62 s = some t → (t.Err = none ↔ t.Valid = true)) ∧
    (∀ buf e, genToken cfg.Len rd = some (buf, some e) →
      (NewTokenFactory cfg).NewToken rd =
        some { token := [], pfx := [], b := [], crc := [], Valid := false, err := some e }) ∧
    (0 ≤ cfg.Len → 0 ≤ cfg.CrcLen → cfg.CrcLen ≤ 1000000 →
      (∃ t, (NewTokenFactory cfg).NewToken rd = some t) ∧
      (∃ t, (NewTokenFactory cfg).FromString s = some t) ∧
      (∃ t, (NewTokenFactory cfg).FromBase62 s = some t)) := by
  refine ⟨fun t ht => NewToken_err_iff_valid _ rd t ht,
    fun t ht => makeToken_err_iff_valid _ s _ t ht,
    fun t ht => makeToken_err_iff_valid _ s _ t ht,
    fun buf e hg => NewToken_of_genToken_error (NewTokenFactory cfg) rd buf e hg,
    fun hLen hCrc hCap => ⟨NewToken_returns (NewTokenFactory cfg) rd hLen hCrc hCap,
      makeToken_returns (NewTokenFactory cfg) s _ hs hLen hCrc hCap,
      makeToken_returns (NewTokenFactory cfg) s _ hs hLen hCrc hCap⟩⟩

/-- C14 witness: the default configuration, a read that fails, and the input `0`. -/
theorem error_valid_invariant_witness :
    (ConfigDefault.Prefix.length ≤ (ascii "0").length) ∧
    ((∀ t, (NewTokenFactory ConfigDefault).NewToken failedRead = some t →
        (t.Err = none ↔ t.Valid = true)) ∧
    (∀ t, (NewTokenFactory ConfigDefault).FromString (ascii "0") = some t →
        (t.Err = none ↔ t.Valid = true)) ∧
    (∀ t, (NewTokenFactory ConfigDefault).FromBase62 (ascii "0") = some t →
        (t.Err = none ↔ t.Valid = true)) ∧
    (∀ buf e, genToken ConfigDefault.Len failedRead = some (buf, some e) →
      (NewTokenFactory ConfigDefault).NewToken failedRead =
        some { token := [], pfx := [], b := [], crc := [], Valid := false, err := some e }) ∧
    (0 ≤ ConfigDefault.Len → 0 ≤ ConfigDefault.CrcLen → ConfigDefault.CrcLen ≤ 1000000 →
      (∃ t, (NewTokenFactory ConfigDefault).NewToken failedRead = some t) ∧
      (∃ t, (NewTokenFactory ConfigDefault).FromString (ascii "0") = some t) ∧
      (∃ t, (NewTokenFactory ConfigDefault).FromBase62 (ascii "0") = some t))) :=
  ⟨by decide, error_valid_invariant ConfigDefault failedRead (ascii "0") (by decide)⟩

/-- C18 (amended): with `Len` non-negative and `CrcLen` between 0 and
1 000 000, `FromString` of an input at least as long as the prefix returns a
token whose string is the input and whose length is the input's, whatever the
verdict. -/
theorem FromString_preserves_input (cfg : TokenConfig) (s : GoString)
    (hLen : 0 ≤ cfg.Len) (hCrc : 0 ≤ cfg.CrcLen) (hCap : cfg.CrcLen ≤ 1000000)
    (hs : cfg.Prefix.length ≤ s.length) :
    ∃ t, (NewTokenFactory cfg).FromString s = some t ∧ t.String = s ∧
      t.Len = (s.length : Int) := by
  have hcfg : (NewTokenFactory cfg).cfg = cfg := rfl
  have key : ∃ t, (NewTokenFactory cfg).FromString s = some t ∧ t.String = s := by
    unfold TokenFactory.FromString
    rcases makeToken_cases (NewTokenFactory cfg) s (fun x => .ok x) hs with
      ⟨e, hp, _⟩ | ⟨token, _, _, hm⟩ | ⟨token, _, _, _, hm⟩ | ⟨token, _, hg, _, hbad, _⟩ |
      ⟨token, c, k, hp, _, hpre, _, _, _, _, _, hm⟩
    · cases hp
    · exact ⟨_, hm, by simp [Token.String]⟩
    · exact ⟨_, hm, by simp [Token.String]⟩
    · have hi := crcIndex_of_pass (NewTokenFactory cfg).cfg token hg hLen hCrc
      simp only [hcfg] at hi hbad
      omega
    · refine ⟨_, hm, ?_⟩
      have hp := Except.ok.inj hp
      by_cases hv : c = token.drop k
      · rw [if_pos hv]
        simp only [Token.String]
        rw [← hpre, ← hp, List.take_append_drop]
      · rw [if_neg hv]
        simp only [Token.String]
        rw [← hpre, ← hp, List.take_append_drop]
  obtain ⟨t, ht, hstr⟩ := key
  exact ⟨t, ht, hstr, by rw [Token.Len, hstr]⟩

/-- C18 witness: prefix `bz`, `Len = 2`, `CrcLen = 2` and the input `bzab12`. -/
theorem FromString_preserves_input_witness :
    (0 ≤ (2 : Int) ∧ 0 ≤ (2 : Int) ∧ (2 : Int) ≤ 1000000 ∧
      (ascii "bz").length ≤ (ascii "bzab12").length) ∧
    ∃ t, (NewTokenFactory { Len := 2, CrcLen := 2, Prefix := ascii "bz" }).FromString
        (ascii "bzab12") = some t ∧ t.String = ascii "bzab12" ∧
      t.Len = (((ascii "bzab12").length : Nat) : Int) :=
  ⟨⟨by decide, by decide, by decide, by decide⟩,
    FromString_preserves_input { Len := 2, CrcLen := 2, Prefix := ascii "bz" } (ascii "bzab12")
      (by decide) (by decide) (by decide) (by decide)⟩

/-- C18 as stated fails in two ways. For a configuration with a negative `Len`
the one-byte input `a` passes the length test (`1 == -1 + 2`) and the empty
prefix, then `token[crcIndex:]` with `crcIndex = -1` panics. For `CrcLen =
1000001` the input of 1 000 002 zero digits passes both tests and `Checksum`
panics. Neither call returns a token. -/
theorem FromString_panics :
    ((([] : GoString).length ≤ (ascii "a").length) ∧
      (NewTokenFactory { Len := -1, CrcLen := 2, Prefix := [] }).FromString (ascii "a") =
        none) ∧
    (wideConfig.Prefix.length ≤ wideInput.length ∧
      (NewTokenFactory wideConfig).FromString wideInput = none) := by
  have hlen : wideInput.length = 1000002 := List.length_replicate _ _
  refine ⟨by decide, Nat.zero_le _, ?_⟩
  exact makeToken_none_of_bad_width (NewTokenFactory wideConfig) wideInput wideInput _
    (Nat.zero_le _) rfl (goLen_of_exact wideConfig wideInput (by rw [hlen]; decide)) rfl
    (Or.inr (by decide))

theorem parseBase62_error_eq (s : GoString) (e : GoError) (h : parseBase62 s = .error e) :
    e = GoError.errorfQ "cannot parse base62: " s := by
  unfold parseBase62 at h
  cases hb : bigSetString s 62 with
  | none => rw [hb] at h; injection h with h; exact h.symm
  | some i => rw [hb] at h; cases h

/-- C15: when the body after the prefix fails to decode, `FromBase62` returns
an invalid token with the parse error, whatever the length and prefix; when it
decodes to `d`, `FromBase62(s)` and `FromString(s[:len(Prefix)] ++ d)` have the
same outcome: the same `Valid` flag, error and prefix (and the same panic, if
one panics), and the error of a returned token is nil or one of "invalid
length", "invalid prefix", "invalid crc". With `Len` non-negative and `CrcLen`
between 0 and 1 000 000 both return a token. -/
theorem FromBase62_is_FromString_after_decoding (cfg : TokenConfig) (s : GoString)
    (hs : cfg.Prefix.length ≤ s.length) :
    (∀ e, parseBase62 (s.drop cfg.Prefix.length) = .error e →
      e = GoError.errorfQ "cannot parse base62: " (s.drop cfg.Prefix.length) ∧
      ∃ t, (NewTokenFactory cfg).FromBase62 s = some t ∧ t.Valid = false ∧
        t.Err = some e) ∧
    (∀ d, parseBase62 (s.drop cfg.Prefix.length) = .ok d →
      ((NewTokenFactory cfg).FromBase62 s).map Token.outcome =
        ((NewTokenFactory cfg).FromString (s.take cfg.Prefix.length ++ d)).map Token.outcome ∧
      (∀ t1, (NewTokenFactory cfg).FromBase62 s = some t1 →
        (t1.Err = none ∨ t1.Err = some (GoError.new "invalid length") ∨
          t1.Err = some (GoError.new "invalid prefix") ∨
          t1.Err = some (GoError.new "invalid crc"))) ∧
      (0 ≤ cfg.Len → 0 ≤ cfg.CrcLen → cfg.CrcLen ≤ 1000000 →
        ∃ t1 t2, (NewTokenFactory cfg).FromBase62 s = some t1 ∧
          (NewTokenFactory cfg).FromString (s.take cfg.Prefix.length ++ d) = some t2 ∧
          t1.Valid = t2.Valid ∧ t1.Err = t2.Err ∧ t1.Prefix = t2.Prefix)) := by
  have hcfg : (NewTokenFactory cfg).cfg = cfg := rfl
  constructor
  · intro e he
    exact ⟨parseBase62_error_eq _ e he, _,
      makeToken_parse_error (NewTokenFactory cfg) s parseBase62 e hs he, rfl, rfl⟩
  · intro d hd
    have hlen2 : (s.take cfg.Prefix.length).length = cfg.Prefix.length := by
      rw [List.length_take]; omega
    have hs2 : cfg.Prefix.length ≤ (s.take cfg.Prefix.length ++ d).length := by
      rw [List.length_append, hlen2]; omega
    have htake : (s.take cfg.Prefix.length ++ d).take cfg.Prefix.length =
        s.take cfg.Prefix.length := List.take_left' hlen2
    have hdrop : (s.take cfg.Prefix.length ++ d).drop cfg.Prefix.length = d :=
      List.drop_left' hlen2
    have hp2 : (fun x => Except.ok x : parseFunc)
        ((s.take cfg.Prefix.length ++ d).drop cfg.Prefix.length) = .ok d := by
      rw [hdrop]
    have hmap : ((NewTokenFactory cfg).FromBase62 s).map Token.outcome =
        ((NewTokenFactory cfg).FromString (s.take cfg.Prefix.length ++ d)).map
          Token.outcome := by
      unfold TokenFactory.FromBase62 TokenFactory.FromString
      by_cases hl : goLen d = wrapInt (cfg.Len + cfg.CrcLen)
      · by_cases hpre : s.take cfg.Prefix.length = cfg.Prefix
        · rw [makeToken_pass (NewTokenFactory cfg) s d parseBase62 hs hd hl hpre,
            makeToken_pass (NewTokenFactory cfg) (s.take cfg.Prefix.length ++ d) d
              (fun x => .ok x) hs2 hp2 hl (by rw [hcfg, htake]; exact hpre)]
        · rw [makeToken_wrong_pfx (NewTokenFactory cfg) s d parseBase62 hs hd hl hpre,
            makeToken_wrong_pfx (NewTokenFactory cfg) (s.take cfg.Prefix.length ++ d) d
              (fun x => .ok x) hs2 hp2 hl (by rw [hcfg, htake]; exact hpre)]
          simp only [Option.map_some', Token.outcome, Token.Err, Token.Prefix, hcfg, htake]
      · rw [makeToken_bad_length (NewTokenFactory cfg) s d parseBase62 hs hd hl,
          makeToken_bad_length (NewTokenFactory cfg) (s.take cfg.Prefix.length ++ d) d
            (fun x => .ok x) hs2 hp2 hl]
        simp only [Option.map_some', Token.outcome, Token.Err, Token.Prefix, hcfg, htake]
    refine ⟨hmap, ?_, ?_⟩
    · intro t1 ht1
      unfold TokenFactory.FromBase62 at ht1
      rcases makeToken_cases (NewTokenFactory cfg) s parseBase62 hs with
        ⟨e, he, _⟩ | ⟨token, _, _, hm⟩ | ⟨token, _, _, _, hm⟩ | ⟨token, _, _, _, _, hm⟩ |
        ⟨token, c, k, _, _, _, _, _, _, _, _, hm⟩
      · simp only [hcfg] at he; rw [hd] at he; cases he
      · rw [hm] at ht1; injection ht1 with ht1; subst ht1
        exact Or.inr (Or.inl rfl)
      · rw [hm] at ht1; injection ht1 with ht1; subst ht1
        exact Or.inr (Or.inr (Or.inl rfl))
      · rw [hm] at ht1; cases ht1
      · rw [hm] at ht1; injection ht1 with ht1; subst ht1
        by_cases hv : c = token.drop k
        · rw [if_pos hv]; exact Or.inl rfl
        · rw [if_neg hv]; exact Or.inr (Or.inr (Or.inr rfl))
    · intro hLen hCrc hCap
      obtain ⟨t1, h1⟩ := makeToken_returns (NewTokenFactory cfg) s parseBase62 hs hLen hCrc hCap
      obtain ⟨t2, h2⟩ := makeToken_returns (NewTokenFactory cfg)
        (s.take cfg.Prefix.length ++ d) (fun x => .ok x) hs2 hLen hCrc hCap
      have h1b : (NewTokenFactory cfg).FromBase62 s = some t1 := h1
      have h2b : (NewTokenFactory cfg).FromString (s.take cfg.Prefix.length ++ d) = some t2 := h2
      rw [h1b, h2b] at hmap
      simp only [Option.map_some', Option.some.injEq, Token.outcome, Prod.mk.injEq] at hmap
      exact ⟨t1, t2, h1b, h2b, hmap.1, hmap.2.1, hmap.2.2⟩

/-- C15 witness: prefix `bz`, `Len = 1`, `CrcLen = 1` and the input `bz06tl`. -/
theorem FromBase62_is_FromString_after_decoding_witness :
    ((ascii "bz").length ≤ (ascii "bz06tl").length) ∧
    ((∀ e, parseBase62 ((ascii "bz06tl").drop (ascii "bz").length) = .error e →
      e = GoError.errorfQ "cannot parse base62: " ((ascii "bz06tl").drop (ascii "bz").length) ∧
      ∃ t, (NewTokenFactory { Len := 1, CrcLen := 1, Prefix := ascii "bz" }).FromBase62
          (ascii "bz06tl") = some t ∧ t.Valid = false ∧ t.Err = some e) ∧
    (∀ d, parseBase62 ((ascii "bz06tl").drop (ascii "bz").length) = .ok d →
      ((NewTokenFactory { Len := 1, CrcLen := 1, Prefix := ascii "bz" }).FromBase62
          (ascii "bz06tl")).map Token.outcome =
        ((NewTokenFactory { Len := 1, CrcLen := 1, Prefix := ascii "bz" }).FromString
          ((ascii "bz06tl").take (ascii "bz").length ++ d)).map Token.outcome ∧
      (∀ t1, (NewTokenFactory { Len := 1, CrcLen := 1, Prefix := ascii "bz" }).FromBase62
          (ascii "bz06tl") = some t1 →
        (t1.Err = none ∨ t1.Err = some (GoError.new "invalid length") ∨
          t1.Err = some (GoError.new "invalid prefix") ∨
          t1.Err = some (GoError.new "invalid crc"))) ∧
      (0 ≤ (1 : Int) → 0 ≤ (1 : Int) → (1 : Int) ≤ 1000000 →
        ∃ t1 t2, (NewTokenFactory { Len := 1, CrcLen := 1, Prefix := ascii "bz" }).FromBase62
            (ascii "bz06tl") = some t1 ∧
          (NewTokenFactory { Len := 1, CrcLen := 1, Prefix := ascii "bz" }).FromString
            ((ascii "bz06tl").take (ascii "bz").length ++ d) = some t2 ∧
          t1.Valid = t2.Valid ∧ t1.Err = t2.Err ∧ t1.Prefix = t2.Prefix))) :=
  ⟨by decide,
    FromBase62_is_FromString_after_decoding { Len := 1, CrcLen := 1, Prefix := ascii "bz" }
      (ascii "bz06tl") (by decide)⟩

/-- C19: there are a configuration with positive `Len` and `CrcLen` and two
distinct inputs, the second being the first with an extra `0` digit right
after the prefix, that `FromBase62` both accepts as valid with no error and
with the same string (prefix `bzt_`, `Len = 1`, `CrcLen = 1`, inputs `bzt_6tl`
and `bzt_06tl`, string `bzt_a3`); hence `FromBase62(s).Base62() == s` fails for
an accepted `s`. -/
theorem FromBase62_accepts_non_canonical :
    (∃ (cfg : TokenConfig) (s1 s2 : GoString) (t1 t2 : Token),
      0 < cfg.Len ∧ 0 < cfg.CrcLen ∧ s1 ≠ s2 ∧
      s2 = cfg.Prefix ++ 48 :: s1.drop cfg.Prefix.length ∧
      s1.take cfg.Prefix.length = cfg.Prefix ∧
      (NewTokenFactory cfg).FromBase62 s1 = some t1 ∧
      (NewTokenFactory cfg).FromBase62 s2 = some t2 ∧
      t1.Valid = true ∧ t1.Err = none ∧ t2.Valid = true ∧ t2.Err = none ∧
      t1.String = t2.String) ∧
    ¬ (∀ (cfg : TokenConfig) (s : GoString) (t : Token),
      (NewTokenFactory cfg).FromBase62 s = some t → t.Valid = true → t.Base62 = s) := by
  have h1 : (NewTokenFactory { Len := 1, CrcLen := 1, Prefix := ascii "bzt_" }).FromBase62
      (ascii "bzt_6tl") = some nonCanonicalSample := by decide
  have h2 : (NewTokenFactory { Len := 1, CrcLen := 1, Prefix := ascii "bzt_" }).FromBase62
      (ascii "bzt_06tl") = some nonCanonicalSample := by decide
  constructor
  · exact ⟨{ Len := 1, CrcLen := 1, Prefix := ascii "bzt_" }, ascii "bzt_6tl", ascii "bzt_06tl",
      nonCanonicalSample, nonCanonicalSample, by decide, by decide, by decide, by decide,
      by decide, h1, h2, rfl, rfl, rfl, rfl, rfl⟩
  · intro h
    have h3 := h { Len := 1, CrcLen := 1, Prefix := ascii "bzt_" } (ascii "bzt_06tl")
      nonCanonicalSample h2 rfl
    revert h3
    decide

/-! ## The fixed-width variant -/

/-- The fixed-width checksum is the factory checksum at width 6. -/
theorem Legacy_Checksum_eq_factory (cfg : TokenConfig) (data : GoString)
    (hc : cfg.CrcLen = 6) : Legacy.Checksum data = (NewTokenFactory cfg).Checksum data := by
  unfold Legacy.Checksum TokenFactory.Checksum Legacy.crcLen
  simp only [NewTokenFactory, hc]

theorem Legacy_Checksum_some (data : GoString) :
    Legacy.Checksum data = some ((sprintfPadUint 6 (ChecksumIEEE data)).take 6) := by
  rw [Legacy_Checksum_eq_factory { Len := 0, CrcLen := 6, Prefix := [] } data rfl,
    Checksum_eq (NewTokenFactory { Len := 0, CrcLen := 6, Prefix := [] }) data (by decide)
      (by decide)]
  unfold sprintfPadUint
  rw [starWidth_of_cap 6 (by decide) (by decide)]
  rfl

theorem Legacy_Checksum_length (data c : GoString) (h : Legacy.Checksum data = some c) :
    c.length = 6 := by
  rw [Legacy_Checksum_eq_factory { Len := 0, CrcLen := 6, Prefix := [] } data rfl] at h
  have := Checksum_length _ _ _ h
  simp only [NewTokenFactory] at this
  omega

theorem Legacy_Checksum_digits (data c : GoString) (h : Legacy.Checksum data = some c) :
    ∀ x ∈ c, isDigitByte x := by
  rw [Legacy_Checksum_eq_factory { Len := 0, CrcLen := 6, Prefix := [] } data rfl] at h
  exact Checksum_digits _ _ _ h

theorem Legacy_makeToken_eq (b : GoString) (h : 6 ≤ b.length) :
    Legacy.makeToken b =
      some { token := b, b := b.take (b.length - 6), crc := b.drop (b.length - 6),
             Valid := false } := by
  have hidx : (b.length : Int) - Legacy.crcLen = (((b.length - 6 : Nat) : Nat) : Int) := by
    unfold Legacy.crcLen; omega
  unfold Legacy.makeToken
  simp only [hidx, sliceFrom_of_le b _ (Nat.sub_le _ _), sliceTo_of_le b _ (Nat.sub_le _ _),
    Option.bind_eq_bind, Option.some_bind, Option.pure_def]

/-- The verdict of the fixed-width parser on an input of at least six bytes is
the checksum test alone. -/
theorem Legacy_TokenFromString_eq (s c : GoString) (h : 6 ≤ s.length)
    (hc : Legacy.Checksum (s.take (s.length - 6)) = some c) :
    Legacy.TokenFromString s =
      some { token := s, b := s.take (s.length - 6), crc := s.drop (s.length - 6),
             Valid := decide (c = s.drop (s.length - 6)) } := by
  unfold Legacy.TokenFromString
  rw [Legacy_makeToken_eq s h]
  simp only [Option.bind_eq_bind, Option.some_bind, Legacy.Validate, hc, Option.map_some',
    Option.pure_def]

theorem Legacy_TokenFromString_of_checksum (payload c : GoString)
    (hc : Legacy.Checksum payload = some c) :
    Legacy.TokenFromString (payload ++ c) =
      some { token := payload ++ c, b := payload, crc := c, Valid := true } := by
  have hl := Legacy_Checksum_length payload c hc
  have hlen : (payload ++ c).length - 6 = payload.length := by
    rw [List.length_append]; omega
  have htake : (payload ++ c).take ((payload ++ c).length - 6) = payload := by
    rw [hlen]; simp
  have hdrop : (payload ++ c).drop ((payload ++ c).length - 6) = c := by
    rw [hlen]; simp
  rw [Legacy_TokenFromString_eq (payload ++ c) c (by rw [List.length_append]; omega)
    (by rw [htake]; exact hc), htake, hdrop]
  simp

theorem Legacy_NewToken_ok (n : Int) (rd : RandRead) (hn : 0 ≤ n) (hok : rd.err = none) :
    ∃ payload crc, Legacy.NewToken n rd =
        some ({ token := payload ++ crc, b := payload, crc := crc, Valid := true }, none) ∧
      payload = (randRead rd (List.replicate n.toNat 0)).1.map letterOf ∧
      Legacy.Checksum payload = some crc := by
  have hc := Legacy_Checksum_some ((randRead rd (List.replicate n.toNat 0)).1.map letterOf)
  have hl := Legacy_Checksum_length _ _ hc
  refine ⟨_, _, ?_, rfl, hc⟩
  unfold Legacy.NewToken
  rw [genToken_eq _ hn]
  simp only [Option.bind_eq_bind, Option.some_bind, hok, hc, sprintfBytesPadStr,
    Option.pure_def, starWidth_of_cap 6 (by decide) (by decide)]
  rw [padWidth_of_length 6 (by decide) _ (by rw [hl]; rfl)]

/-- C17: for `n ≥ 0` and a read that succeeds, the fixed-width `NewToken(n)`
returns a token of length `n + 6` that validates; `TokenFromString` of its
string is valid with the same string, and `TokenFromBase62` of its base-62 form
returns a nil error and a valid token with the same string. -/
theorem legacy_round_trip (n : Int) (rd : RandRead) (hn : 0 ≤ n) (hok : rd.err = none) :
    ∃ t, Legacy.NewToken n rd = some (t, none) ∧ t.Len = n + 6 ∧
      Legacy.Validate t = some true ∧
      (∃ t2, Legacy.TokenFromString t.String = some t2 ∧ t2.Valid = true ∧
        t2.String = t.String) ∧
      (∃ t3, Legacy.TokenFromBase62 t.Base62 = some (t3, none) ∧ t3.Valid = true ∧
        t3.String = t.String) := by
  obtain ⟨payload, crc, hnew, hpay, hsum⟩ := Legacy_NewToken_ok n rd hn hok
  have hpl : (payload.length : Int) = n := by
    rw [hpay]; exact genToken_payload_length n hn rd
  have hcl := Legacy_Checksum_length payload crc hsum
  have hfs := Legacy_TokenFromString_of_checksum payload crc hsum
  have hhead : ∀ v ∈ (payload ++ crc).head?, v ≠ (0 : Byte) := by
    intro v hv
    cases hp : payload with
    | nil =>
      rw [hp] at hv
      cases hcz : crc with
      | nil => rw [hcz] at hcl; simp at hcl
      | cons d rest =>
        rw [hcz] at hv
        simp at hv
        subst hv
        have hd := Legacy_Checksum_digits payload crc hsum d (by rw [hcz]; simp)
        intro hz
        subst hz
        revert hd
        decide
    | cons p rest =>
      rw [hp] at hv
      simp at hv
      subst hv
      apply isAlnumByte_ne_zero
      have hmem : p ∈ payload := by rw [hp]; exact List.mem_cons_self _ _
      rw [hpay] at hmem
      obtain ⟨w, _, rfl⟩ := List.mem_map.mp hmem
      exact letterOf_alnum w
  have hparse : parseBase62 (toBase62 (payload ++ crc)) = .ok (payload ++ crc) := by
    rw [parseBase62_toBase62, bigBytes_bigSetBytes _ hhead]
  refine ⟨_, hnew, ?_, ?_, ⟨_, hfs, rfl, rfl⟩, ?_⟩
  · simp only [Legacy.Token.Len, List.length_append]
    push_cast
    omega
  · simp [Legacy.Validate, hsum]
  · refine ⟨{ token := payload ++ crc, b := payload, crc := crc, Valid := true }, ?_, rfl, rfl⟩
    have hmk := Legacy_makeToken_eq (payload ++ crc) (by rw [List.length_append]; omega)
    have hlen : (payload ++ crc).length - 6 = payload.length := by
      rw [List.length_append]; omega
    simp only [Legacy.TokenFromBase62, Legacy.Token.Base62, hparse, hmk, Option.bind_eq_bind,
      Option.some_bind, Legacy.Validate, hlen, List.take_left', List.drop_left', hsum,
      Option.map_some', Option.pure_def]
    simp

/-- C17 witness: `n = 30` and a read that delivers `[7, 200, 61]` without error. -/
theorem legacy_round_trip_witness :
    (0 ≤ (30 : Int) ∧ (⟨[7, 200, 61], none⟩ : RandRead).err = none) ∧
    ∃ t, Legacy.NewToken 30 ⟨[7, 200, 61], none⟩ = some (t, none) ∧ t.Len = 30 + 6 ∧
      Legacy.Validate t = some true ∧
      (∃ t2, Legacy.TokenFromString t.String = some t2 ∧ t2.Valid = true ∧
        t2.String = t.String) ∧
      (∃ t3, Legacy.TokenFromBase62 t.Base62 = some (t3, none) ∧ t3.Valid = true ∧
        t3.String = t.String) :=
  ⟨⟨by decide, rfl⟩, legacy_round_trip 30 ⟨[7, 200, 61], none⟩ (by decide) rfl⟩

/-- C20: the fixed-width `Checksum` is the factory `Checksum` at `CrcLen = 6`;
for an `int` `n ≥ 0` and an input of `n + 6` bytes, `TokenFromString` and the
factory with `Len = n`, `CrcLen = 6` and no prefix return tokens with the same
`Valid` flag, both with the input as string. For a Go string of another length,
at least six bytes long, the fixed-width parser makes no length test (its
verdict is the checksum test alone) while the factory rejects with "invalid
length"; there is such an input that the fixed-width parser accepts. -/
theorem legacy_agrees_with_factory (cfg : TokenConfig) (data : GoString) (n : Int)
    (s : GoString) (hInt : isInt n) (hc : cfg.CrcLen = 6) (hn : 0 ≤ n)
    (hs : (s.length : Int) = n + 6) :
    Legacy.Checksum data = (NewTokenFactory cfg).Checksum data ∧
    (∃ c, Legacy.Checksum data = some c) ∧
    (∃ t1 t2, Legacy.TokenFromString s = some t1 ∧
      (NewTokenFactory (widthSixConfig n hInt)).FromString s = some t2 ∧
      t1.Valid = t2.Valid ∧ t1.String = s ∧ t2.String = s) ∧
    (∀ s2 : GoString, 6 ≤ s2.length → (s2.length : Int) ≤ 9223372036854775807 →
      (s2.length : Int) ≠ n + 6 →
      (∃ t1, Legacy.TokenFromString s2 = some t1 ∧
        (t1.Valid = true ↔
          Legacy.Checksum (s2.take (s2.length - 6)) = some (s2.drop (s2.length - 6)))) ∧
      (∃ t2, (NewTokenFactory (widthSixConfig n hInt)).FromString s2 = some t2 ∧
        t2.Valid = false ∧ t2.Err = some (GoError.new "invalid length"))) ∧
    (∃ s2 t1 t2, (s2.length : Int) ≠ n + 6 ∧ Legacy.TokenFromString s2 = some t1 ∧
      (NewTokenFactory (widthSixConfig n hInt)).FromString s2 = some t2 ∧
      t1.Valid = true ∧ t2.Valid = false) := by
  have hcfgL : (NewTokenFactory (widthSixConfig n hInt)).cfg.Len = n := rfl
  have hcfgC : (NewTokenFactory (widthSixConfig n hInt)).cfg.CrcLen = 6 := rfl
  have hcfgP : (NewTokenFactory (widthSixConfig n hInt)).cfg.Prefix = [] := rfl
  have hI := hInt
  unfold isInt at hI
  refine ⟨Legacy_Checksum_eq_factory cfg data hc, ⟨_, Legacy_Checksum_some data⟩, ?_, ?_, ?_⟩
  · have h6 : 6 ≤ s.length := by omega
    have hlc := Legacy_Checksum_some (s.take (s.length - 6))
    have hidx : s.length - 6 = n.toNat := by omega
    have hfc : (NewTokenFactory (widthSixConfig n hInt)).Checksum (s.take n.toNat) =
        some ((sprintfPadUint 6 (ChecksumIEEE (s.take n.toNat))).take 6) := by
      rw [← Legacy_Checksum_eq_factory (widthSixConfig n hInt) _ rfl, Legacy_Checksum_some]
    have hfs := FromString_prefixed (NewTokenFactory (widthSixConfig n hInt))
      s _ (by rw [hcfgL, hcfgC]; exact hs) (by rw [hcfgL]; exact hn)
      (by rw [hcfgC]; decide) (by rw [hcfgL]; exact hfc)
    simp only [hcfgL, hcfgP, List.nil_append] at hfs
    rw [hidx] at hlc
    have hls := Legacy_TokenFromString_eq s _ h6 (by rw [hidx]; exact hlc)
    rw [hidx] at hls
    refine ⟨_, _, hls, hfs, ?_, rfl, ?_⟩
    · by_cases hv : (sprintfPadUint 6 (ChecksumIEEE (s.take n.toNat))).take 6 = s.drop n.toNat
      · rw [if_pos hv]; simp [hv]
      · rw [if_neg hv]; simp [hv]
    · split <;> simp [Token.String]
  · intro s2 h6 hgo hne
    constructor
    · refine ⟨_, Legacy_TokenFromString_eq s2 _ h6 (Legacy_Checksum_some _), ?_⟩
      rw [Legacy_Checksum_some]
      simp
    · refine ⟨_, makeToken_bad_length (NewTokenFactory (widthSixConfig n hInt))
        s2 s2 _ (by rw [hcfgP]; exact Nat.zero_le _) rfl ?_, rfl, rfl⟩
      rw [hcfgL, hcfgC, goLen_of_le s2 hgo]
      unfold wrapInt
      omega
  · have hcs := Legacy_Checksum_some (List.replicate (n.toNat + 1) (48 : Byte))
    have hl := Legacy_Checksum_length _ _ hcs
    have hlen : ((List.replicate (n.toNat + 1) (48 : Byte) ++
        (sprintfPadUint 6 (ChecksumIEEE (List.replicate (n.toNat + 1) 48))).take 6).length : Int)
        = n + 7 := by
      rw [List.length_append, hl, List.length_replicate]
      push_cast
      omega
    refine ⟨_, _, _, by rw [hlen]; omega, Legacy_TokenFromString_of_checksum _ _ hcs,
      makeToken_bad_length (NewTokenFactory (widthSixConfig n hInt))
        _ _ _ (by rw [hcfgP]; exact Nat.zero_le _) rfl ?_, rfl, rfl⟩
    rw [hcfgL, hcfgC]
    simp only [hcfgP, List.length_nil, List.drop_zero]
    unfold goLen
    rw [hlen]
    unfold wrapInt
    omega

/-- C20 witness: `n = 2` and the eight-byte input `ab123456`. -/
theorem legacy_agrees_with_factory_witness :
    (isInt 2 ∧ ConfigDefault.CrcLen = 6 ∧ 0 ≤ (2 : Int) ∧
      (((ascii "ab123456").length : Nat) : Int) = 2 + 6) ∧
    (Legacy.Checksum (ascii "ab") = (NewTokenFactory ConfigDefault).Checksum (ascii "ab") ∧
    (∃ c, Legacy.Checksum (ascii "ab") = some c) ∧
    (∃ t1 t2, Legacy.TokenFromString (ascii "ab123456") = some t1 ∧
      (NewTokenFactory (widthSixConfig 2 (by decide))).FromString (ascii "ab123456")
        = some t2 ∧
      t1.Valid = t2.Valid ∧ t1.String = ascii "ab123456" ∧ t2.String = ascii "ab123456") ∧
    (∀ s2 : GoString, 6 ≤ s2.length → (s2.length : Int) ≤ 9223372036854775807 →
      (s2.length : Int) ≠ 2 + 6 →
      (∃ t1, Legacy.TokenFromString s2 = some t1 ∧
        (t1.Valid = true ↔
          Legacy.Checksum (s2.take (s2.length - 6)) = some (s2.drop (s2.length - 6)))) ∧
      (∃ t2, (NewTokenFactory (widthSixConfig 2 (by decide))).FromString s2 = some t2 ∧
        t2.Valid = false ∧ t2.Err = some (GoError.new "invalid length"))) ∧
    (∃ s2 t1 t2, (s2.length : Int) ≠ 2 + 6 ∧ Legacy.TokenFromString s2 = some t1 ∧
      (NewTokenFactory (widthSixConfig 2 (by decide))).FromString s2 = some t2 ∧
      t1.Valid = true ∧ t2.Valid = false)) :=
  ⟨⟨by decide, rfl, by decide, by decide⟩,
    legacy_agrees_with_factory ConfigDefault (ascii "ab") 2 (ascii "ab123456") (by decide) rfl
      (by decide) (by decide)⟩

end Secrets
